import Mathlib

/-!
Verification of the ConvoHelper message-analytics pipeline.

This file gives a shallow embedding, in Lean 4, of the core of the
ConvoHelper repository (a browser app that ingests a JSON export of
direct-message logs and derives weekly/monthly clusters and analytics),
and proves or refutes the frozen specification claims about it.

Modelling conventions:
  * JavaScript timestamps (milliseconds since the Unix epoch, local time
    treated as UTC since the app applies its timezone offset explicitly)
    are `Int`.
  * JavaScript numbers that carry fractional values (minutes, scores,
    percentages) are `Rat`; integer-valued counters are `Nat` or `Int`.
  * Per-call regular expressions are embedded as executable matchers on
    `List Char`, faithful to the backtracking semantics of the concrete
    patterns in the source (each matcher is commented with the pattern
    it implements).
  * JavaScript exceptions are `Except String` (or `Option` where only
    the presence of a throw matters).
  * Global mutable state (`window.appData`, the session timezone offset,
    the selected identity, the current date) is passed explicitly.
-/

namespace ConvoHelper

/-! ## Calendar arithmetic

The JavaScript `Date` object, restricted to what the source uses:
proleptic Gregorian calendar, millisecond timestamps.  The civil
conversions follow the standard days-from-civil / civil-from-days
algorithms.  `Int.ediv`/`Int.emod` give floor semantics for the positive
divisors used here, matching `Math.floor` on real division. -/

def msPerDay : Int := 86400000

def msPerHour : Int := 3600000

/-- days-from-civil: days since 1970-01-01 of the given (year, month 1..12,
day); day values outside 1..31 roll over exactly as JavaScript `Date`
normalizes them (the formula is linear in `d`). -/
def daysFromCivil (y m d : Int) : Int :=
  let y' := if m ≤ 2 then y - 1 else y
  let era := y'.ediv 400
  let yoe := y' - era * 400
  let mp := (m + 9).emod 12
  let doy := (153 * mp + 2).ediv 5 + d - 1
  let doe := yoe * 365 + yoe.ediv 4 - yoe.ediv 100 + doy
  era * 146097 + doe - 719468

/-- civil-from-days: (year, month 1..12, day 1..31) of a day count since
1970-01-01. -/
def civilFromDays (z : Int) : Int × Int × Int :=
  let z' := z + 719468
  let era := z'.ediv 146097
  let doe := z' - era * 146097
  let yoe := (doe - doe.ediv 1460 + doe.ediv 36524 - doe.ediv 146096).ediv 365
  let y := yoe + era * 400
  let doy := doe - (365 * yoe + yoe.ediv 4 - yoe.ediv 100)
  let mp := (5 * doy + 2).ediv 153
  let d := doy - (153 * mp + 2).ediv 5 + 1
  let m := if mp < 10 then mp + 3 else mp - 9
  (if m ≤ 2 then y + 1 else y, m, d)

/-- epoch day of a millisecond timestamp (floor). -/
def epochDay (ts : Int) : Int := ts.ediv msPerDay

/-- millisecond offset within the day, always in `[0, 86400000)`. -/
def msInDay (ts : Int) : Int := ts.emod msPerDay

/-- `Date.prototype.getFullYear`. -/
def getFullYear (ts : Int) : Int := (civilFromDays (epochDay ts)).1

/-- `Date.prototype.getMonth` (0-based). -/
def getMonth (ts : Int) : Int := (civilFromDays (epochDay ts)).2.1 - 1

/-- `Date.prototype.getDate` (day of month). -/
def getDate (ts : Int) : Int := (civilFromDays (epochDay ts)).2.2

/-- `Date.prototype.getDay` (0 = Sunday .. 6 = Saturday); 1970-01-01 was a
Thursday (= 4). -/
def getDayOfWeek (ts : Int) : Int := (epochDay ts + 4).emod 7

/-- `Date.prototype.getHours`. -/
def getHours (ts : Int) : Int := (msInDay ts).ediv msPerHour

/-- `Date.prototype.getMinutes`. -/
def getMinutes (ts : Int) : Int := ((msInDay ts).ediv 60000).emod 60

/-- `Date.prototype.getSeconds`. -/
def getSeconds (ts : Int) : Int := ((msInDay ts).ediv 1000).emod 60

/-- timestamp of a civil date-time. -/
def mkTimestamp (y m d h mi s : Int) : Int :=
  daysFromCivil y m d * msPerDay + h * msPerHour + mi * 60000 + s * 1000

/-- integer ceiling division (`Math.ceil` of the real quotient, for a
positive divisor). -/
def ceilDiv (a b : Int) : Int := -((-a).ediv b)

/-! ## Message data model -/

/-- content classification, decided once at normalization time
(`messageType` in `Parser.processContent`). -/
inductive MsgType where
  | text
  | link
  | media
  | sticker
  | empty
deriving DecidableEq, Repr

/-- a normalized message, as produced by `Parser.parseMessage`.  The field
`sender` models the `from` field of the source (`from` is a Lean
keyword). -/
structure Msg where
  timestamp : Int
  sender : String
  content : String
  type : MsgType
  week : Int
  year : Int
  month : Int
  day : Int
  hour : Int
  dayOfWeek : Int
deriving DecidableEq, Repr

/-! ## String utilities -/

/-- JavaScript whitespace as used by `trim` and the regex class `\s`
(restricted to the ASCII whitespace characters; the Unicode space
characters do not occur in the claims or counterexamples). -/
def jsWs (c : Char) : Bool :=
  c = ' ' || c = '\t' || c = '\n' || c = '\r' || c = '\x0b' || c = '\x0c'

/-- `String.prototype.trim` on character lists. -/
def trimL (l : List Char) : List Char :=
  ((l.dropWhile jsWs).reverse.dropWhile jsWs).reverse

/-- ASCII lower-casing of one character (`toLowerCase` restricted to
ASCII, which covers URLs and the case-insensitive TikTok pattern). -/
def lowA (c : Char) : Char :=
  if 'A' ≤ c ∧ c ≤ 'Z' then Char.ofNat (c.toNat + 32) else c

/-- digit test (regex `\d`). -/
def isDigitC (c : Char) : Bool := '0' ≤ c && c ≤ '9'

/-- decimal reading of a digit run. -/
def digitsToNat (cs : List Char) : Nat :=
  cs.foldl (fun a c => a * 10 + (c.toNat - 48)) 0

/-- word-character test (regex `\w`). -/
def isWordC (c : Char) : Bool :=
  ('a' ≤ c && c ≤ 'z') || ('A' ≤ c && c ≤ 'Z') || isDigitC c || c = '_'

/-- suffix test on character lists (`String.prototype.endsWith`). -/
def endsWithL (cs suf : List Char) : Bool :=
  decide (cs.reverse.take suf.length = suf.reverse)

/-- `String(n).padStart(2, "0")`. -/
def padStart2 (s : String) : String :=
  ⟨List.replicate (2 - s.data.length) '0' ++ s.data⟩

/-! ## Content classification (`Parser.processContent`)

The three per-call regular expressions of the source are embedded as
executable matchers.  Each matcher, applied to a suffix of the content,
decides whether a match of the pattern starts exactly at that position
and returns the match length (plus the capture group where the
replacement needs it); a generic scanner then finds the leftmost match,
exactly as the JavaScript engine does. -/

/-- consume `https?:\/\/` case-sensitively at the head: the optional `s`
is tried greedily, which amounts to testing the literal prefixes
`https://` then `http://`. -/
def afterScheme (cs : List Char) : Option (List Char) :=
  if cs.take 8 = "https://".data then some (cs.drop 8)
  else if cs.take 7 = "http://".data then some (cs.drop 7)
  else none

/-- consume a literal case-insensitively (for the `/i` TikTok pattern);
`lit` is given in lower case. -/
def takeLit (lit : List Char) (cs : List Char) : Option (List Char) :=
  if (cs.take lit.length).map lowA = lit then some (cs.drop lit.length) else none

/-- media extensions checked in the bare-URL branch of
`processContent`, in source order. -/
def mediaExts : List (List Char) :=
  [".jpg".data, ".jpeg".data, ".png".data, ".gif".data, ".webp".data,
   ".mp4".data, ".mov".data, ".avi".data]

/-- sticker extensions (the alternation `webp|gif|png|jpg|jpeg`), in
source order; no listed extension is a suffix of another, so the
decomposition below is unique. -/
def stickerExts : List (List Char) :=
  ["webp".data, "gif".data, "png".data, "jpg".data, "jpeg".data]

/-- decompose the last path segment of a sticker body as
`p1 ++ "." ++ ext`: the lazy group `([^\/\]]+?)` together with the
trailing `\]` forces the extension to sit at the very end of the
segment, and `p1` to be everything before its dot (nonempty). -/
def stickerSeg (seg : List Char) : Option (List Char) :=
  (stickerExts.filterMap (fun ext =>
    if endsWithL seg ('.' :: ext) && seg.length > ext.length + 1
    then some (seg.take (seg.length - (ext.length + 1)))
    else none)).head?

/-- match of the sticker pattern
`\[https?:\/\/[^\]]*\/([^\/\]]+?)\.(webp|gif|png|jpg|jpeg)\]`
starting exactly at the head; returns (match length, capture `p1`).
Since no class inside the brackets admits `]`, the match must close at
the first `]` after the opening bracket; the greedy `[^\]]*` followed
by `\/` forces the split at the last `/` of the body. -/
def stickerMatchAt (cs : List Char) : Option (Nat × List Char) :=
  match cs with
  | [] => none
  | c :: cs1 =>
    if c = '[' then
      match afterScheme cs1 with
      | none => none
      | some cs2 =>
        let schemeLen := cs1.length - cs2.length
        let body := cs2.takeWhile (fun c => c ≠ ']')
        if (cs2.drop body.length).take 1 = [']'] then
          let seg := (body.reverse.takeWhile (fun c => c ≠ '/')).reverse
          if seg.length = body.length then none  -- no slash in the body
          else
            match stickerSeg seg with
            | none => none
            | some p1 => some (1 + schemeLen + body.length + 1, p1)
        else none
    else none

/-- match of the TikTok pattern
`https?:\/\/(?:www\.|m\.)?tiktok(?:v)?\.com\/(?:share\/video\/|@[\w.-]+\/video\/)(\d+)(?:[/?#&].*)?`
(flag `i`) starting exactly at the head; returns the match length.
Each optional/alternative literal here is committed without
backtracking, which is sound because every alternative is
distinguished from what legally follows it by its first character. -/
def tiktokMatchAt (cs : List Char) : Option Nat :=
  let schemeRes :=
    match takeLit "https://".data cs with
    | some r => some r
    | none => takeLit "http://".data cs
  match schemeRes with
  | none => none
  | some s1 =>
    let s2 :=
      match takeLit "www.".data s1 with
      | some r => r
      | none =>
        match takeLit "m.".data s1 with
        | some r => r
        | none => s1
    match takeLit "tiktok".data s2 with
    | none => none
    | some s3 =>
      let s4 := match takeLit "v".data s3 with | some r => r | none => s3
      match takeLit ".com/".data s4 with
      | none => none
      | some s5 =>
        let branch :=
          match takeLit "share/video/".data s5 with
          | some r => some r
          | none =>
            match s5 with
            | '@' :: s6 =>
              let nm := s6.takeWhile (fun c => isWordC c || c = '.' || c = '-')
              if nm = [] then none
              else takeLit "/video/".data (s6.drop nm.length)
            | _ => none
        match branch with
        | none => none
        | some s7 =>
          let digits := s7.takeWhile isDigitC
          if digits = [] then none
          else
            let s8 := s7.drop digits.length
            let tail :=
              match s8 with
              | c :: s9 =>
                if c = '/' || c = '?' || c = '#' || c = '&' then
                  1 + (s9.takeWhile (fun d => ¬(d = '\n' || d = '\r'))).length
                else 0
              | [] => 0
            some (cs.length - s8.length + tail)

/-- match of the bare-URL pattern `https?:\/\/[^\s]+` starting exactly
at the head; returns the match length (greedy run of non-whitespace). -/
def linkMatchAt (cs : List Char) : Option Nat :=
  match afterScheme cs with
  | none => none
  | some rest =>
    let run := rest.takeWhile (fun c => ¬ jsWs c)
    if run = [] then none
    else some (cs.length - rest.length + run.length)

/-- leftmost match of a positional matcher: returns
(text before the match, suffix starting at the match, match length,
extra data), scanning positions left to right as the regex engine
does. -/
def findFirst (f : List Char → Option (Nat × β)) : List Char →
    Option (List Char × List Char × Nat × β)
  | [] => none
  | c :: cs =>
    match f (c :: cs) with
    | some (len, b) => some ([], c :: cs, len, b)
    | none =>
      (findFirst f cs).map (fun r => (c :: r.1, r.2.1, r.2.2.1, r.2.2.2))

/-- sticker matcher in the interface of `findFirst`. -/
def stickerM (cs : List Char) : Option (Nat × List Char) := stickerMatchAt cs

/-- TikTok matcher in the interface of `findFirst`. -/
def tiktokM (cs : List Char) : Option (Nat × Unit) :=
  (tiktokMatchAt cs).map (fun n => (n, ()))

/-- bare-URL matcher in the interface of `findFirst`. -/
def linkM (cs : List Char) : Option (Nat × Unit) :=
  (linkMatchAt cs).map (fun n => (n, ()))

/-! ### decodeURIComponent -/

/-- hexadecimal digit value. -/
def hexVal (c : Char) : Option Nat :=
  if '0' ≤ c ∧ c ≤ '9' then some (c.toNat - 48)
  else if 'a' ≤ c ∧ c ≤ 'f' then some (c.toNat - 87)
  else if 'A' ≤ c ∧ c ≤ 'F' then some (c.toNat - 55)
  else none

/-- one `%XX` escape. -/
def pctByte : List Char → Option (Nat × List Char)
  | '%' :: h1 :: h2 :: rest =>
    match hexVal h1, hexVal h2 with
    | some a, some b => some (16 * a + b, rest)
    | _, _ => none
  | _ => none

/-- maximal run of `%XX` escapes (fuelled; the fuel bounds the number of
escapes, each of which consumes three characters). -/
def grabPct : Nat → List Char → List Nat × List Char
  | 0, cs => ([], cs)
  | fuel + 1, cs =>
    match pctByte cs with
    | some (b, rest) =>
      let r := grabPct fuel rest
      (b :: r.1, r.2)
    | none => ([], cs)

/-- strict UTF-8 decoding of an escape-byte run (fuelled by the list
length), as the ECMAScript `Decode` abstract operation performs it:
`none` — where `decodeURIComponent` raises `URIError` — for a bad
leading byte (`0x80`–`0xC1`, `0xF5`–`0xFF`), a missing or malformed
continuation byte, an overlong encoding, a surrogate code point, or a
code point above `U+10FFFF`. -/
def utf8Decode : Nat → List Nat → Option (List Char)
  | 0, _ => some []
  | _ + 1, [] => some []
  | fuel + 1, b :: bs =>
    if b < 0x80 then (utf8Decode fuel bs).map (Char.ofNat b :: ·)
    else if 0xC2 ≤ b ∧ b ≤ 0xDF then
      match bs with
      | c1 :: bs2 =>
        if 0x80 ≤ c1 ∧ c1 ≤ 0xBF then
          (utf8Decode fuel bs2).map (Char.ofNat ((b - 0xC0) * 64 + (c1 - 0x80)) :: ·)
        else none
      | [] => none
    else if 0xE0 ≤ b ∧ b ≤ 0xEF then
      match bs with
      | c1 :: c2 :: bs2 =>
        if (0x80 ≤ c1 ∧ c1 ≤ 0xBF) ∧ (0x80 ≤ c2 ∧ c2 ≤ 0xBF) then
          let v := (b - 0xE0) * 4096 + (c1 - 0x80) * 64 + (c2 - 0x80)
          if v < 0x800 ∨ (0xD800 ≤ v ∧ v ≤ 0xDFFF) then none
          else (utf8Decode fuel bs2).map (Char.ofNat v :: ·)
        else none
      | _ => none
    else if 0xF0 ≤ b ∧ b ≤ 0xF4 then
      match bs with
      | c1 :: c2 :: c3 :: bs2 =>
        if (0x80 ≤ c1 ∧ c1 ≤ 0xBF) ∧ (0x80 ≤ c2 ∧ c2 ≤ 0xBF) ∧
            (0x80 ≤ c3 ∧ c3 ≤ 0xBF) then
          let v := (b - 0xF0) * 262144 + (c1 - 0x80) * 4096 +
            (c2 - 0x80) * 64 + (c3 - 0x80)
          if v < 0x10000 ∨ 0x10FFFF < v then none
          else (utf8Decode fuel bs2).map (Char.ofNat v :: ·)
        else none
      | _ => none
    else none

/-- `decodeURIComponent` (fuelled by the list length): decodes maximal
`%XX` runs as strict UTF-8 and passes other characters through; `none`
models the `URIError` the source raises at a `%` that is not followed
by two hexadecimal digits, or at an escape run that is not valid
UTF-8. -/
def percentDecodeAux : Nat → List Char → Option (List Char)
  | 0, cs => some cs
  | _ + 1, [] => some []
  | fuel + 1, c :: cs =>
    if c = '%' then
      match grabPct (c :: cs).length (c :: cs) with
      | ([], _) => none
      | (bs, rest) =>
        match utf8Decode bs.length bs with
        | none => none
        | some ds => (percentDecodeAux fuel rest).map (ds ++ ·)
    else (percentDecodeAux fuel cs).map (c :: ·)

/-- decodeURIComponent on character lists. -/
def percentDecode (cs : List Char) : Option (List Char) :=
  percentDecodeAux cs.length cs

/-! ### Global replacement -/

/-- `content.replace(stickerRegex, (m, p1) => "[Sticker: " + decode(p1) + "]")`
with the global flag: repeatedly replace the leftmost match and continue
after the replacement; a `URIError` from `decodeURIComponent` in the
replacement callback aborts the whole `replace` call.  Fuelled by the
content length (every match consumes at least one character, so the
fuel is never exhausted). -/
def stickerReplAux : Nat → List Char → Except String (List Char)
  | 0, cs => .ok cs
  | fuel + 1, cs =>
    match findFirst stickerM cs with
    | none => .ok cs
    | some (pre, suf, len, p1) =>
      match percentDecode p1 with
      | none => .error "URIError"
      | some dec =>
        match stickerReplAux fuel (suf.drop len) with
        | .error e => .error e
        | .ok tail => .ok (pre ++ ("[Sticker: ".data ++ dec ++ [']']) ++ tail)

/-- global sticker replacement. -/
def stickerReplaceAll (cs : List Char) : Except String (List Char) :=
  stickerReplAux cs.length cs

/-- `content.replace(tiktokRegex, () => "[Media: TikTok Video]")` with the
global flag, fuelled like the sticker replacement. -/
def tiktokReplAux : Nat → List Char → List Char
  | 0, cs => cs
  | fuel + 1, cs =>
    match findFirst tiktokM cs with
    | none => cs
    | some (pre, suf, len, _) =>
      pre ++ "[Media: TikTok Video]".data ++ tiktokReplAux fuel (suf.drop len)

/-- global TikTok replacement. -/
def tiktokReplaceAll (cs : List Char) : List Char := tiktokReplAux cs.length cs

/-- `content.match(linkRegex)`: all non-overlapping bare-URL matches,
left to right (fuelled by the content length). -/
def allLinksAux : Nat → List Char → List (List Char)
  | 0, _ => []
  | fuel + 1, cs =>
    match findFirst linkM cs with
    | none => []
    | some (_, suf, len, _) => suf.take len :: allLinksAux fuel (suf.drop len)

/-- all bare-URL matches of the content. -/
def allLinks (cs : List Char) : List (List Char) := allLinksAux cs.length cs

/-! ### `new URL` (WHATWG basic URL parser, at its call site)

The link branch of `processContent` reads
`new URL(links[0]).hostname + pathname`, and the constructor throws
`TypeError` on an invalid URL.  Every argument is a `linkRegex` match,
so it starts with the literal scheme `http://` or `https://` and
contains no whitespace; the parser below follows the URL Standard for
that input class: input stripping, the extra-slash skipping of the
special-authority states, userinfo splitting at the last `@`,
empty-host and port validation errors, percent-decoding and the
forbidden-domain-code-point check on the host, the IPv4 parser for
hosts ending in a number, backslash-as-slash in the path, single- and
double-dot path segments, and percent-encoding of the path with the
path percent-encode set.  Two host shapes need machinery that is not
modelled and yield `none` here: `[...]` IPv6 literals (the real parser
accepts the well-formed ones) and domains needing IDNA — a non-ASCII
byte after percent-decoding or an `xn--` label (the real parser
punycode-processes them).  The predicate `hostInScope` delimits this
fragment, and every theorem below either restricts itself to it or does
not depend on the URL parser at all. -/

/-- hexadecimal digit test on a byte value. -/
def isHexB (b : Nat) : Bool :=
  (48 ≤ b && b ≤ 57) || (97 ≤ b && b ≤ 102) || (65 ≤ b && b ≤ 70)

/-- hexadecimal digit value of a byte value (defined on `isHexB`). -/
def hexValB (b : Nat) : Nat :=
  if b ≤ 57 then b - 48 else if 97 ≤ b then b - 87 else b - 55

/-- UTF-8 encoding of one character. -/
def utf8EncodeChar (c : Char) : List Nat :=
  let n := c.toNat
  if n < 0x80 then [n]
  else if n < 0x800 then [0xC0 + n / 64, 0x80 + n % 64]
  else if n < 0x10000 then
    [0xE0 + n / 4096, 0x80 + n / 64 % 64, 0x80 + n % 64]
  else
    [0xF0 + n / 262144, 0x80 + n / 4096 % 64, 0x80 + n / 64 % 64, 0x80 + n % 64]

/-- UTF-8 encoding of a character list. -/
def utf8Encode (cs : List Char) : List Nat := (cs.map utf8EncodeChar).flatten

/-- percent-decoding of the URL Standard on bytes (fuelled by the list
length): `%` followed by two hexadecimal digits becomes that byte,
anything else passes through unchanged — unlike `decodeURIComponent`,
this never fails. -/
def urlPctDecode : Nat → List Nat → List Nat
  | 0, bs => bs
  | _ + 1, [] => []
  | fuel + 1, b :: bs =>
    if b = 37 then
      match bs with
      | h1 :: h2 :: rest =>
        if isHexB h1 && isHexB h2 then
          (16 * hexValB h1 + hexValB h2) :: urlPctDecode fuel rest
        else b :: urlPctDecode fuel bs
      | _ => b :: urlPctDecode fuel bs
    else b :: urlPctDecode fuel bs

/-- forbidden domain code points of the URL Standard: C0 controls,
space, `%`, `U+007F`, and the forbidden host code points. -/
def forbiddenDomainC (c : Char) : Bool :=
  decide (c.val ≤ 0x20) || decide (c.val = 0x7F) ||
  c = '%' || c = '#' || c = '/' || c = ':' || c = '<' || c = '>' ||
  c = '?' || c = '@' || c = '[' || c = '\\' || c = ']' || c = '^' || c = '|'

/-- digit value in a radix (8, 10 or 16), through `hexVal`. -/
def digitVal (radix : Nat) (c : Char) : Option Nat :=
  match hexVal c with
  | some v => if v < radix then some v else none
  | none => none

/-- the IPv4 number parser of the URL Standard: `0x`/`0X` prefix for
hexadecimal, a leading `0` for octal, decimal otherwise; a prefix with
no digits is 0; `none` where the standard returns failure. -/
def parseIPv4Number (s : List Char) : Option Nat :=
  match s with
  | [] => none
  | _ =>
    let pr : Nat × List Char :=
      if s.take 2 = ['0', 'x'] ∨ s.take 2 = ['0', 'X'] then (16, s.drop 2)
      else if 2 ≤ s.length ∧ s.take 1 = ['0'] then (8, s.drop 1)
      else (10, s)
    if pr.2 = [] then some 0
    else if pr.2.all (fun c => (digitVal pr.1 c).isSome) then
      some (pr.2.foldl (fun a c => a * pr.1 + (digitVal pr.1 c).getD 0) 0)
    else none

/-- the ends-in-a-number checker of the URL Standard, on the domain
labels split at `.` (one trailing empty label is dropped). -/
def endsInNumber (d : List Char) : Bool :=
  let parts0 := d.splitOn '.'
  let parts := if parts0.getLast? = some [] then parts0.dropLast else parts0
  match parts.getLast? with
  | none => false
  | some last =>
    (decide (last ≠ []) && last.all isDigitC) || (parseIPv4Number last).isSome

/-- sequencing of a list of options. -/
def seqOption : List (Option α) → Option (List α)
  | [] => some []
  | none :: _ => none
  | some a :: rest => (seqOption rest).map (a :: ·)

/-- the IPv4 parser of the URL Standard: at most four dot-separated
parts (one trailing empty part is dropped), each an IPv4 number, the
leading parts at most 255 and the last below `256^(5 - n)`. -/
def parseIPv4 (d : List Char) : Option Nat :=
  let parts0 := d.splitOn '.'
  let parts := if parts0.getLast? = some [] then parts0.dropLast else parts0
  if 4 < parts.length then none
  else
    match seqOption (parts.map parseIPv4Number) with
    | none => none
    | some ns =>
      match ns.getLast? with
      | none => none
      | some last =>
        if ns.dropLast.any (fun n => decide (255 < n)) then none
        else if 256 ^ (5 - ns.length) ≤ last then none
        else some ((ns.dropLast.foldl (fun a n => a * 256 + n) 0) *
          256 ^ (5 - ns.length) + last)

/-- dotted-decimal IPv4 serialization. -/
def serializeIPv4 (n : Nat) : List Char :=
  (toString (n / 16777216)).data ++ '.' :: (toString (n / 65536 % 256)).data ++
    '.' :: (toString (n / 256 % 256)).data ++ '.' :: (toString (n % 256)).data

/-- the host parser for a special scheme, on the modelled fragment
(see the section comment): percent-decode the UTF-8 bytes of the host
string, lower-case, check the forbidden domain code points, and run the
IPv4 parser when the domain ends in a number; `[...]` literals and
IDNA-needing domains return `none`. -/
def parseHost (hostStr : List Char) : Option (List Char) :=
  if hostStr.take 1 = ['['] then none
  else
    let bytes := urlPctDecode (utf8Encode hostStr).length (utf8Encode hostStr)
    if bytes.any (fun b => decide (0x80 ≤ b)) then none
    else
      let d := (bytes.map Char.ofNat).map lowA
      if (d.splitOn '.').any (fun l => l.take 4 = "xn--".data) then none
      else if d.any forbiddenDomainC then none
      else if endsInNumber d then (parseIPv4 d).map serializeIPv4
      else some d

/-- split host and port at the first `:` outside `[...]` brackets, as
the host state does with its inside-brackets flag. -/
def splitHP : List Char → Bool → List Char × Option (List Char)
  | [], _ => ([], none)
  | c :: cs, inB =>
    if c = ':' ∧ ¬ inB then ([], some cs)
    else
      let r := splitHP cs (if c = '[' then true else if c = ']' then false else inB)
      (c :: r.1, r.2)

/-- the port state: digits only, value at most 65535 (an empty port is
allowed and dropped). -/
def validPort : Option (List Char) → Bool
  | none => true
  | some p => p.all isDigitC && (decide (p = []) || decide (digitsToNat p ≤ 65535))

/-- input preparation of the URL parser: remove leading and trailing
C0 controls and spaces, then all tabs and newlines. -/
def urlPreprocess (link : List Char) : List Char :=
  (((link.dropWhile (fun c => decide (c.val ≤ 0x20))).reverse.dropWhile
    (fun c => decide (c.val ≤ 0x20))).reverse).filter
    (fun c => ¬(c = '\t' ∨ c = '\n' ∨ c = '\r'))

/-- scheme, special-authority slash skipping and userinfo handling:
returns the host-and-port string (the authority after the last `@`)
and the remaining input (starting with `/`, `\`, `?` or `#`, or
empty); `none` if the input is not an `http(s)` URL. -/
def urlAuthoritySplit (link : List Char) : Option (List Char × List Char) :=
  match afterScheme (urlPreprocess link) with
  | none => none
  | some rest =>
    let rest1 := rest.dropWhile (fun c => c = '/' ∨ c = '\\')
    let auth := rest1.takeWhile (fun c => ¬(c = '/' ∨ c = '\\' ∨ c = '?' ∨ c = '#'))
    let hostPort :=
      if auth.contains '@' then (auth.reverse.takeWhile (fun c => c ≠ '@')).reverse
      else auth
    some (hostPort, rest1.drop auth.length)

/-- the path percent-encode set: C0 controls, `U+007F` and above,
space, `"`, `#`, `<`, `>`, `?`, backtick, `{` and `}`. -/
def pathEncodeC (c : Char) : Bool :=
  decide (c.val ≤ 0x1F) || decide (0x7F ≤ c.val) ||
  c = ' ' || c = '"' || c = '#' || c = '<' || c = '>' || c = '?' ||
  c = '\x60' || c = '{' || c = '}'

/-- `%XX` with upper-case hexadecimal digits. -/
def pctEncodeByte (b : Nat) : List Char :=
  ['%', "0123456789ABCDEF".data.getD (b / 16) '0',
    "0123456789ABCDEF".data.getD (b % 16) '0']

/-- UTF-8 percent-encoding of one path character. -/
def pctEncodeChar (c : Char) : List Char :=
  if pathEncodeC c then ((utf8EncodeChar c).map pctEncodeByte).flatten else [c]

/-- single-dot path segment (`.` or a percent-encoding of it, after
case-folding). -/
def isSingleDot (seg : List Char) : Bool :=
  seg = ['.'] || seg.map lowA = "%2e".data

/-- double-dot path segment (`..` or combinations with `%2e`, after
case-folding). -/
def isDoubleDot (seg : List Char) : Bool :=
  seg = ['.', '.'] || seg.map lowA = "%2e.".data ||
  seg.map lowA = ".%2e".data || seg.map lowA = "%2e%2e".data

/-- segment-boundary action of the path state: a double dot shortens
the path, a single dot adds nothing, any other buffer is appended; at a
boundary that is not `/` or `\` a dot segment leaves an empty final
segment. -/
def pathFlush (buf : List Char) (path : List (List Char)) (slash : Bool) :
    List (List Char) :=
  if isDoubleDot buf then
    if slash then path.dropLast else path.dropLast ++ [[]]
  else if isSingleDot buf then
    if slash then path else path ++ [[]]
  else path ++ [buf]

/-- the path state for a special scheme (fuelled by the input length):
split at `/` and `\`, stop at `?` and `#`, percent-encode everything
else with the path set. -/
def pathLoop : Nat → List Char → List (List Char) → List Char → List (List Char)
  | 0, buf, path, _ => pathFlush buf path false
  | _ + 1, buf, path, [] => pathFlush buf path false
  | fuel + 1, buf, path, c :: cs =>
    if c = '/' ∨ c = '\\' then pathLoop fuel [] (pathFlush buf path true) cs
    else if c = '?' ∨ c = '#' then pathFlush buf path false
    else pathLoop fuel (buf ++ pctEncodeChar c) path cs

/-- `urlObj.pathname` from the input remaining after the authority: the
path-start state consumes one leading `/` or `\`, the path state builds
the segments, and the serialization prefixes each with `/`. -/
def urlPathname (afterAuth : List Char) : List Char :=
  let pathInput :=
    match afterAuth with
    | c :: cs => if c = '/' ∨ c = '\\' then cs else afterAuth
    | [] => []
  ((pathLoop (pathInput.length + 1) [] [] pathInput).map
    (fun s => '/' :: s)).flatten

/-- `new URL(link)` at its call site: `(hostname, pathname)`, or `none`
for the `TypeError` of an invalid URL (empty host, non-digit or
out-of-range port, forbidden domain code point, invalid trailing IPv4
number) and for the two unmodelled host shapes of the section
comment. -/
def newURL (link : List Char) : Option (List Char × List Char) :=
  match urlAuthoritySplit link with
  | none => none
  | some (hostPort, afterAuth) =>
    let hp := splitHP hostPort false
    if hp.1 = [] then none
    else if ¬ validPort hp.2 then none
    else (parseHost hp.1).map (fun host => (host, urlPathname afterAuth))

/-- `urlObj.hostname + urlObj.pathname`, as the link branch of the
source concatenates them. -/
def urlHostPath (link : List Char) : Option (List Char) :=
  (newURL link).map (fun hp => hp.1 ++ hp.2)

/-- the modelled fragment of the host parser: a host that is not an
IPv6 literal, has only ASCII bytes after percent-decoding, and has no
`xn--` label, so that the IDNA machinery the model omits cannot fire.
The C2 refinement theorem restricts its content universe to links whose
host lies in this fragment. -/
def hostInScope (link : List Char) : Bool :=
  match urlAuthoritySplit link with
  | none => false
  | some (hostPort, _) =>
    let hostStr := (splitHP hostPort false).1
    let bytes := urlPctDecode (utf8Encode hostStr).length (utf8Encode hostStr)
    decide (hostStr.take 1 ≠ ['[']) && bytes.all (fun b => decide (b < 0x80)) &&
      ((((bytes.map Char.ofNat).map lowA).splitOn '.').all
        (fun l => decide (l.take 4 ≠ "xn--".data)))

/-- media-extension test of the bare-URL branch:
`link.toLowerCase().endsWith(ext)` for some listed extension. -/
def hasMediaExt (link : List Char) : Bool :=
  mediaExts.any (fun ext => endsWithL (link.map lowA) ext)

/-- `Parser.processContent`: classify raw content and rewrite it.
Transliterated from the source:

* `cleanContent` is the content with all sticker matches replaced, then
  all TikTok matches replaced — a `URIError` from the decode inside the
  sticker callback propagates out of the whole call;
* the type is then decided by the first test that fires:
  trimmed-empty `cleanContent`, sticker test on the original content,
  TikTok test on the original content, bare-URL test on the original
  content (inside which a media extension on any URL gives `media`,
  otherwise the display string is rebuilt from the first URL only, with
  the `TypeError` of `new URL` propagating out),
  else `text`.

The source guards the bare-URL branch with `linkRegex.test(content)` and
then reads `content.match(linkRegex)`; the test succeeds exactly when
the match list is nonempty, so the branch is expressed as a match on
`allLinks` whose nil case falls through to `text`. -/
def processContent (content : String) : Except String (String × MsgType) :=
  let cs := content.data
  match stickerReplaceAll cs with
  | .error e => .error e
  | .ok c1 =>
    let c2 := tiktokReplaceAll c1
    if trimL c2 = [] then .ok ("", .empty)
    else if (findFirst stickerM cs).isSome then .ok (⟨c2⟩, .sticker)
    else if (findFirst tiktokM cs).isSome then .ok (⟨c2⟩, .media)
    else
      match allLinks cs with
      | [] => .ok (⟨c2⟩, .text)
      | l :: ls =>
        if (l :: ls).any hasMediaExt then .ok (⟨c2⟩, .media)
        else
          match urlHostPath l with
          | none => .error "TypeError"
          | some hp => .ok (⟨"[Link: ".data ++ hp ++ [']']⟩, .link)

/-- content classification as the specification states it (claim C2):
the same precedence chain, with the empty test phrased on the *raw*
content, the media-by-extension and text branches returning the content
*unchanged*, and the link branch built from the first URL only.  The
sticker rewrite (with its `URIError`) and the TikTok rewrite are the
shared placeholder substitutions, and the link branch shares the
`new URL` model (with its `TypeError`). -/
def processContentClaim (content : String) : Except String (String × MsgType) :=
  let cs := content.data
  if trimL cs = [] then .ok ("", .empty)
  else if (findFirst stickerM cs).isSome then
    match stickerReplaceAll cs with
    | .error e => .error e
    | .ok c1 => .ok (⟨tiktokReplaceAll c1⟩, .sticker)
  else if (findFirst tiktokM cs).isSome then
    .ok (⟨tiktokReplaceAll cs⟩, .media)
  else
    match allLinks cs with
    | [] => .ok (content, .text)
    | l :: ls =>
      if (l :: ls).any hasMediaExt then .ok (content, .media)
      else
        match urlHostPath l with
        | none => .error "TypeError"
        | some hp => .ok (⟨"[Link: ".data ++ hp ++ [']']⟩, .link)

/-! ## Message normalization (`Parser`) -/

/-- fixed-width numeric field of a date string. -/
def sliceNat (cs : List Char) (i len : Nat) : Nat :=
  digitsToNat ((cs.drop i).take len)

/-- `new Date(str.replace(" ", "T")).getTime()` for the formats the
source accepts: `YYYY-MM-DD HH:MM:SS` (space or `T` separator) and the
date-only prefix `YYYY-MM-DD`, whose missing time fields read as 0.
The host clock is modelled as UTC; the session timezone offset is
applied separately, as in the source. -/
def parseDateString (s : String) : Int :=
  let cs := s.data
  mkTimestamp (sliceNat cs 0 4) (sliceNat cs 5 2) (sliceNat cs 8 2)
    (sliceNat cs 11 2) (sliceNat cs 14 2) (sliceNat cs 17 2)

/-- `Parser.getISOWeek`, transliterated: move to the Thursday of the
week (`setDate(getDate() - dayNr + 3)` adds `3 - dayNr` days), remember
it, jump to January 1 of the Thursday year (`setMonth(0, 1)` keeps the
time of day), advance to the first Thursday of that year if needed, and
count weeks. -/
def getISOWeek (ts : Int) : Int :=
  let dayNr := (getDayOfWeek ts + 6).emod 7
  let thursday := ts + (3 - dayNr) * msPerDay
  let ty := getFullYear thursday
  let tod := msInDay thursday
  let jan1 := daysFromCivil ty 1 1 * msPerDay + tod
  let target :=
    if getDayOfWeek jan1 ≠ 4 then
      daysFromCivil ty 1 (1 + ((4 - getDayOfWeek jan1) + 7).emod 7) * msPerDay + tod
    else jan1
  1 + ceilDiv (thursday - target) 604800000

/-- a `{start, end}` pair of `Date` values, by timestamp (`end` is a
Lean keyword, hence the field names). -/
structure DateRange where
  rangeStart : Int
  rangeEnd : Int
deriving DecidableEq, Repr

/-- `Parser.getWeekDateRange`, transliterated: `new Date(year, 0, d)`
normalizes an out-of-range day by day arithmetic from January 1, then
the start moves to the Monday of the ISO week of `simple`. -/
def getWeekDateRange (year week : Int) : DateRange :=
  let simple := daysFromCivil year 1 1 + ((1 + (week - 1) * 7) - 1)
  let dow := (simple + 4).emod 7
  let startDay := if dow ≤ 4 then simple + (1 - dow) else simple + (8 - dow)
  ⟨startDay * msPerDay, (startDay + 6) * msPerDay⟩

/-- a raw message record restricted to string fields (`Date`, `From`,
`Content`), the shape `Parser.parseMessage` actually handles. -/
structure RawMsg where
  Date : String
  From : String
  Content : String
deriving DecidableEq, Repr

/-- `Parser.parseMessage`: parse the timestamp, apply the session
timezone offset in hours (`setHours(getHours() + tz)` adds `tz` hours),
classify the content, and derive the calendar fields; an exception from
`processContent` propagates. -/
def parseMessage (tz : Int) (m : RawMsg) : Except String Msg :=
  let ts := parseDateString m.Date + tz * msPerHour
  match processContent m.Content with
  | .error e => .error e
  | .ok pc =>
    .ok { timestamp := ts
          sender := m.From
          content := pc.1
          type := pc.2
          week := getISOWeek ts
          year := getFullYear ts
          month := getMonth ts
          day := getDate ts
          hour := getHours ts
          dayOfWeek := getDayOfWeek ts }

/-- month names, as in `Parser.formatDate` and
`Processor.getMonthName`. -/
def monthNames : List String :=
  ["January", "February", "March", "April", "May", "June",
   "July", "August", "September", "October", "November", "December"]

/-- `Parser.formatDate`. -/
def formatDate (ts : Int) : String :=
  (monthNames.getD (getMonth ts).toNat "undefined") ++ " " ++
    toString (getDate ts) ++ ", " ++ toString (getFullYear ts)

/-- `Parser.formatDateRange`. -/
def formatDateRange (startTs endTs : Int) : String :=
  if getFullYear startTs = getFullYear endTs ∧ getMonth startTs = getMonth endTs then
    formatDate startTs ++ " - " ++ toString (getDate endTs)
  else
    formatDate startTs ++ " - " ++ formatDate endTs

/-! ## Temporal clustering (`Processor`) -/

/-- stable insertion of one element into a sorted list: the new element
goes after existing elements it does not strictly precede. -/
def insertByL (le : α → α → Bool) (a : α) : List α → List α
  | [] => [a]
  | b :: l => if le b a then b :: insertByL le a l else a :: b :: l

/-- stable insertion sort, modelling the (stable) `Array.prototype.sort`
of the source comparators. -/
def sortByL (le : α → α → Bool) : List α → List α
  | [] => []
  | a :: l => insertByL le a (sortByL le l)

/-- a week cluster (`dateRange` is filled in a second pass, as in the
source, where it starts out `null`). -/
structure WeekCluster where
  year : Int
  week : Int
  messages : List Msg
  count : Nat
  dateRange : Option DateRange
deriving DecidableEq, Repr

/-- the cluster key `${msg.year}-W${String(msg.week).padStart(2, "0")}`. -/
def wkKey (m : Msg) : String :=
  toString m.year ++ "-W" ++ padStart2 (toString m.week)

/-- one step of `Processor.clusterByWeeks`: create the cluster on first
sight of its key (JavaScript string-keyed objects preserve insertion
order), then push the message and bump the count. -/
def addMsgToWeeks (ws : List (String × WeekCluster)) (m : Msg) :
    List (String × WeekCluster) :=
  match ws with
  | [] => [(wkKey m, ⟨m.year, m.week, [m], 1, none⟩)]
  | (k, w) :: rest =>
    if k = wkKey m then
      (k, { w with messages := w.messages ++ [m], count := w.count + 1 }) :: rest
    else (k, w) :: addMsgToWeeks rest m

/-- `Processor.clusterByWeeks`: group messages by week key, then compute
each date range from the year and week number. -/
def clusterByWeeks (msgs : List Msg) : List (String × WeekCluster) :=
  (msgs.foldl addMsgToWeeks []).map
    (fun p => (p.1, { p.2 with dateRange := some (getWeekDateRange p.2.year p.2.week) }))

/-- a month group; `weeks` keeps each week together with its key, as the
source spreads `{key: weekKey, ...week}`. -/
structure MonthGroup where
  year : Int
  month : Int
  weeks : List (String × WeekCluster)
  totalMessages : Nat
  monthName : String
deriving DecidableEq, Repr

/-- `Processor.getMonthName`. -/
def getMonthName (monthIndex : Int) : String :=
  monthNames.getD monthIndex.toNat "undefined"

/-- the month key `${firstMsg.year}-${String(firstMsg.month + 1).padStart(2, "0")}`. -/
def moKey (m : Msg) : String :=
  toString m.year ++ "-" ++ padStart2 (toString (m.month + 1))

/-- insertion of one nonempty week (with first message `firstMsg`) into
the month groups: create the group on first sight of its key, else
append the week and add its count. -/
def addWeekEntry (firstMsg : Msg) (entry : String × WeekCluster) :
    List (String × MonthGroup) → List (String × MonthGroup)
  | [] =>
    [(moKey firstMsg,
      ⟨firstMsg.year, firstMsg.month, [entry], entry.2.count,
        getMonthName firstMsg.month⟩)]
  | (k, g) :: rest =>
    if k = moKey firstMsg then
      (k, { g with weeks := g.weeks ++ [entry],
                   totalMessages := g.totalMessages + entry.2.count }) :: rest
    else (k, g) :: addWeekEntry firstMsg entry rest

/-- one step of `Processor.groupIntoMonths`: a week with no messages is
skipped; otherwise its first message chooses the month. -/
def addWeekToMonths (ms : List (String × MonthGroup)) (entry : String × WeekCluster) :
    List (String × MonthGroup) :=
  match entry.2.messages with
  | [] => ms
  | firstMsg :: _ => addWeekEntry firstMsg entry ms

/-- comparator of the week sort inside each month
(`a.year === b.year ? a.week - b.week : a.year - b.year`, ascending). -/
def weekLe (a b : String × WeekCluster) : Bool :=
  a.2.year < b.2.year || (a.2.year = b.2.year && a.2.week ≤ b.2.week)

/-- `Processor.groupIntoMonths`. -/
def groupIntoMonths (weeks : List (String × WeekCluster)) :
    List (String × MonthGroup) :=
  (weeks.foldl addWeekToMonths []).map
    (fun p => (p.1, { p.2 with weeks := sortByL weekLe p.2.weeks }))

/-! ## Analytics engine (`Processor`, continued)

The session identity (`window.appData.userIdentity`) is passed
explicitly as `uid : Option String`; `none` models an unset identity.
`toFixed` formatting of reported scores and percentages is presentation
only and is dropped: the embedded values are the exact rationals the
source formats. -/

/-- `Processor.getUserIdentity`: the selected identity if it is falsy
(unset or the empty string) falls back to the literal `"you"`; an
identity absent from the senders of the conversation falls back to the
first sender. -/
def getUserIdentity (uid : Option String) (messages : List Msg) : String :=
  match uid with
  | none => "you"
  | some u =>
    if u = "" then "you"
    else if (messages.map (·.sender)).contains u then u
    else
      match messages with
      | [] => "you"
      | m :: _ => m.sender

/-- response-time report. -/
structure ResponseTimes where
  yourAverage : Rat
  theirAverage : Rat
  yourMedian : Rat
  theirMedian : Rat
deriving DecidableEq, Repr

/-- `Processor.calculateMedian`. -/
def calculateMedian (arr : List Rat) : Rat :=
  if arr = [] then 0
  else
    let sorted := sortByL (fun a b => decide (a ≤ b)) arr
    let mid := sorted.length / 2
    if sorted.length % 2 = 0 then
      ((sorted.getD (mid - 1) 0) + sorted.getD mid 0) / 2
    else sorted.getD mid 0

/-- `Processor.calculateResponseTimes`: the gap of every adjacent pair
with differing senders, in minutes, attributed to the later sender. -/
def calculateResponseTimes (uid : Option String) (messages : List Msg) :
    ResponseTimes :=
  if messages = [] then ⟨0, 0, 0, 0⟩
  else
    let userIdentity := getUserIdentity uid messages
    let pairs := messages.zip (messages.drop 1)
    let you := pairs.filterMap (fun p =>
      if p.1.sender ≠ p.2.sender ∧ p.2.sender = userIdentity then
        some (((p.2.timestamp - p.1.timestamp : Int) : Rat) / 60000)
      else none)
    let them := pairs.filterMap (fun p =>
      if p.1.sender ≠ p.2.sender ∧ p.2.sender ≠ userIdentity then
        some (((p.2.timestamp - p.1.timestamp : Int) : Rat) / 60000)
      else none)
    { yourAverage := if you = [] then 0 else you.sum / you.length
      theirAverage := if them = [] then 0 else them.sum / them.length
      yourMedian := calculateMedian you
      theirMedian := calculateMedian them }

/-- a burst record (`start`/`end` dates are modelled by their
timestamps). -/
structure Burst where
  startTs : Int
  endTs : Int
  messageCount : Nat
  duration : Rat
deriving DecidableEq, Repr

/-- the burst record emitted for a qualifying run. -/
def mkBurst (run : List Msg) : Burst :=
  let s := ((run.head?).map (·.timestamp)).getD 0
  let e := ((run.getLast?).map (·.timestamp)).getD 0
  ⟨s, e, run.length, ((e - s : Int) : Rat) / 60000⟩

/-- loop of `Processor.detectMessageBursts`: `cur` is the current run;
a gap over 30 minutes closes it (emitting it only when it has at least
5 messages) and starts a new run at the current message. -/
def burstsAux (cur : List Msg) : List Msg → List Burst
  | [] => if cur.length ≥ 5 then [mkBurst cur] else []
  | m :: rest =>
    match cur.getLast? with
    | none => burstsAux [m] rest
    | some lastM =>
      if ((m.timestamp - lastM.timestamp : Int) : Rat) / 60000 ≤ 30 then
        burstsAux (cur ++ [m]) rest
      else
        (if cur.length ≥ 5 then [mkBurst cur] else []) ++ burstsAux [m] rest

/-- `Processor.detectMessageBursts`. -/
def detectMessageBursts (messages : List Msg) : List Burst :=
  burstsAux [] messages

/-- a gap record. -/
structure Gap where
  startTs : Int
  endTs : Int
  days : Int
deriving DecidableEq, Repr

/-- gaps-and-streaks report. -/
structure GapsStreaks where
  longestGap : Int
  currentStreak : Nat
  longestStreak : Nat
  gaps : List Gap
deriving DecidableEq, Repr

/-- the per-day key `${year}-${MM}-${DD}` used throughout the source. -/
def dayKey (m : Msg) : String :=
  toString m.year ++ "-" ++ padStart2 (toString (m.month + 1)) ++ "-" ++
    padStart2 (toString m.day)

/-- insertion-ordered deduplication (JavaScript `Set` iteration
order). -/
def dedupL [DecidableEq α] (l : List α) : List α :=
  l.foldl (fun acc k => if acc.contains k then acc else acc ++ [k]) []

/-- backward walk of the current-streak loop over the sorted day keys
(given reversed): count day steps of exactly one day until the first
break. -/
def countBackAux : List String → Nat
  | c :: p :: rest =>
    if ((parseDateString c - parseDateString p : Int) : Rat) / msPerDay = 1 then
      1 + countBackAux (p :: rest)
    else 0
  | _ => 0

/-- `Processor.calculateGapsAndStreaks`; `now` models `new Date()`. -/
def calculateGapsAndStreaks (now : Int) (messages : List Msg) : GapsStreaks :=
  if messages = [] then ⟨0, 0, 0, []⟩
  else
    let sortedDates := sortByL (fun a b => decide (a ≤ b)) (dedupL (messages.map dayKey))
    let pairs := messages.zip (messages.drop 1)
    let gaps := pairs.filterMap (fun p =>
      let gapDays : Rat := ((p.2.timestamp - p.1.timestamp : Int) : Rat) / msPerDay
      if gapDays > 1 then some (⟨p.1.timestamp, p.2.timestamp, ⌊gapDays⌋⟩ : Gap)
      else none)
    let datePairs := sortedDates.zip (sortedDates.drop 1)
    let st := datePairs.foldl (fun (st : Nat × Nat) pr =>
      if ((parseDateString pr.2 - parseDateString pr.1 : Int) : Rat) / msPerDay = 1 then
        (st.1 + 1, st.2)
      else (1, max st.2 st.1)) (1, 1)
    let longestStreak := max st.2 st.1
    let lastTs := ((messages.getLast?).map (·.timestamp)).getD 0
    let currentStreak :=
      if ((now - lastTs : Int) : Rat) / msPerDay ≤ 1 then
        1 + countBackAux sortedDates.reverse
      else 0
    let longestGap := (gaps.map (·.days)).foldl max 0
    { longestGap := longestGap
      currentStreak := currentStreak
      longestStreak := longestStreak
      gaps := (sortByL (fun a b => decide (a.days ≥ b.days)) gaps).take 5 }

/-- initiator report. -/
structure InitiatorScore where
  youInitiated : Nat
  themInitiated : Nat
  yourPercentage : Rat
  theirPercentage : Rat
deriving DecidableEq, Repr

/-- `Processor.calculateInitiatorScore`: a message after a gap over six
hours starts an episode, and the first message always does. -/
def calculateInitiatorScore (uid : Option String) (messages : List Msg) :
    InitiatorScore :=
  if messages = [] then ⟨0, 0, 0, 0⟩
  else
    let userIdentity := getUserIdentity uid messages
    let pairs := messages.zip (messages.drop 1)
    let starters := pairs.filterMap (fun p =>
      if p.2.timestamp - p.1.timestamp > 6 * 60 * 60 * 1000 then some p.2.sender
      else none)
    let allStarters := starters ++ (messages.map (·.sender)).take 1
    let you := (allStarters.filter (fun s => s = userIdentity)).length
    let them := (allStarters.filter (fun s => s ≠ userIdentity)).length
    let total := you + them
    { youInitiated := you
      themInitiated := them
      yourPercentage := if total > 0 then (you : Rat) / total * 100 else 0
      theirPercentage := if total > 0 then (them : Rat) / total * 100 else 0 }

/-- balance report. -/
structure BalanceScore where
  score : Rat
  yourPercentage : Rat
  theirPercentage : Rat
  youCount : Nat
  themCount : Nat
deriving DecidableEq, Repr

/-- `Processor.calculateBalanceScore`. -/
def calculateBalanceScore (uid : Option String) (messages : List Msg) :
    BalanceScore :=
  if messages = [] then ⟨0, 0, 0, 0, 0⟩
  else
    let userIdentity := getUserIdentity uid messages
    let youCount := (messages.filter (fun m => m.sender = userIdentity)).length
    let themCount := (messages.filter (fun m => m.sender ≠ userIdentity)).length
    let total := youCount + themCount
    if total = 0 then ⟨0, 0, 0, 0, 0⟩
    else
      let yourPercentage : Rat := (youCount : Rat) / total * 100
      let theirPercentage : Rat := (themCount : Rat) / total * 100
      { score := 100 - |50 - yourPercentage| * 2
        yourPercentage := yourPercentage
        theirPercentage := theirPercentage
        youCount := youCount
        themCount := themCount }

/-! ## Statistics (`Stats`, `StatsIndividual`) -/

/-- message-type counters. -/
structure TypeCounts where
  text : Nat
  link : Nat
  media : Nat
  sticker : Nat
  empty : Nat
deriving DecidableEq, Repr

/-- `Stats.countMessageTypes` (the unknown-type fallback of the source
is unreachable once `type` is the enum decided at normalization). -/
def countMessageTypes (messages : List Msg) : TypeCounts :=
  messages.foldl (fun t m =>
    match m.type with
    | .text => { t with text := t.text + 1 }
    | .link => { t with link := t.link + 1 }
    | .media => { t with media := t.media + 1 }
    | .sticker => { t with sticker := t.sticker + 1 }
    | .empty => { t with empty := t.empty + 1 }) ⟨0, 0, 0, 0, 0⟩

/-- JavaScript percentage `(a / b) * 100` where `b` may be zero: `none`
models the `NaN` produced by `0 / 0` (the only zero-divisor case that
arises, since the numerators are bounded by the denominators here). -/
def jsPct (a b : Nat) : Option Rat :=
  if b = 0 then none else some ((a : Rat) / b * 100)

/-- content breakdown with percentages
(`StatsIndividual.getDetailedContentBreakdown`); the nested
`percentages` object is flattened into the `pct*` fields. -/
structure ContentBreakdown where
  counts : TypeCounts
  pctText : Option Rat
  pctLink : Option Rat
  pctMedia : Option Rat
  pctSticker : Option Rat
  pctEmpty : Option Rat
deriving DecidableEq, Repr

/-- `StatsIndividual.getDetailedContentBreakdown`. -/
def getDetailedContentBreakdown (messages : List Msg) : ContentBreakdown :=
  let b := countMessageTypes messages
  let total := messages.length
  ⟨b, jsPct b.text total, jsPct b.link total, jsPct b.media total,
    jsPct b.sticker total, jsPct b.empty total⟩

/-- a milestone entry. -/
structure Milestone where
  mtype : String
  dateTs : Int
  message : String
  icon : String
deriving DecidableEq, Repr

/-- `setFullYear(getFullYear() + k)` on a timestamp: same calendar
month/day/time with the year advanced, normalized (February 29 rolls to
March 1 in a non-leap year, as in JavaScript). -/
def addYears (ts k : Int) : Int :=
  let c := civilFromDays (epochDay ts)
  daysFromCivil (c.1 + k) c.2.1 c.2.2 * msPerDay + msInDay ts

/-- `StatsIndividual.calculateMilestones` on the `messages` field of
the processed data.  The first-message milestone is guarded by a length
check, but the anniversary block then reads `messages[0].date`
unconditionally: on an empty list that access throws (`TypeError`),
modelled by `none`. -/
def calculateMilestones (messages : List Msg) : Option (List Milestone) :=
  let firstM :=
    match messages.head? with
    | some m => [(⟨"first", m.timestamp, "First message", "🎉"⟩ : Milestone)]
    | none => []
  let countM := ([100, 500, 1000, 5000, 10000] : List Nat).filterMap (fun k =>
    if messages.length ≥ k then
      (messages.get? (k - 1)).map (fun m =>
        (⟨"count", m.timestamp, toString k ++ "th message", "💯"⟩ : Milestone))
    else none)
  match messages.head? with
  | none => none
  | some m0 =>
    let lastTs := ((messages.getLast?).map (·.timestamp)).getD 0
    let yearsDiff : Rat :=
      ((lastTs - m0.timestamp : Int) : Rat) / (1000 * 60 * 60 * 24 * 365)
    let anns := (List.range ⌊yearsDiff⌋.toNat).map (fun i =>
      let y : Nat := i + 1
      (⟨"anniversary", addYears m0.timestamp (y : Int),
        toString y ++ " year" ++ (if y > 1 then "s" else "") ++ " of conversation",
        "🎂"⟩ : Milestone))
    some (sortByL (fun a b => decide (a.dateTs ≤ b.dateTs))
      (firstM ++ countM ++ anns))

/-! ## Export formatter (`Exporter`) -/

/-- insertion-ordered grouping by a string key (JavaScript object key
iteration order for non-index keys). -/
def groupByKey (key : Msg → String) (msgs : List Msg) : List (String × List Msg) :=
  msgs.foldl (fun acc m =>
    let rec go : List (String × List Msg) → List (String × List Msg)
      | [] => [(key m, [m])]
      | (k, l) :: rest =>
        if k = key m then (k, l ++ [m]) :: rest else (k, l) :: go rest
    go acc) []

/-- insertion-ordered per-sender counters. -/
def senderCounts (msgs : List Msg) : List (String × Nat) :=
  msgs.foldl (fun acc m =>
    let rec go : List (String × Nat) → List (String × Nat)
      | [] => [(m.sender, 1)]
      | (k, n) :: rest =>
        if k = m.sender then (k, n + 1) :: rest else (k, n) :: go rest
    go acc) []

/-- `Number.prototype.toFixed(1)` on the exact rational: round to the
nearest tenth, ties toward the larger value, as the specification of
`toFixed` picks the larger candidate. -/
def toFixed1 (q : Rat) : String :=
  let n : Int := ⌊q * 10 + 1 / 2⌋
  let a := n.natAbs
  (if n < 0 then "-" else "") ++ toString (a / 10) ++ "." ++ toString (a % 10)

/-- the `HH:MM:SS` stamp of a message line. -/
def timeStamp (m : Msg) : String :=
  padStart2 (toString m.hour) ++ ":" ++ padStart2 (toString (getMinutes m.timestamp)) ++
    ":" ++ padStart2 (toString (getSeconds m.timestamp))

/-- `Exporter.generateWeekMarkdown`; `exportDate` models
`new Date().toLocaleDateString()` (passed in, since it reads the
clock).  The `dateRange` is always set by `clusterByWeeks` before
export; the default covers the vacuous `null` case. -/
def generateWeekMarkdown (exportDate personName : String) (week : WeekCluster) :
    String :=
  let dr := week.dateRange.getD ⟨0, 0⟩
  let header :=
    "# Conversation Export: " ++ personName ++ "\n\n" ++
    "**Week**: " ++ toString week.week ++ " (" ++ toString week.year ++ ")\n" ++
    "**Total Messages**: " ++ toString week.messages.length ++ "\n" ++
    "**Date Range**: " ++ formatDateRange dr.rangeStart dr.rangeEnd ++ "\n\n" ++
    "---\n\n" ++ "## Messages\n\n"
  let msgLines := (groupByKey (fun m => formatDate m.timestamp) week.messages).foldl
    (fun acc p =>
      acc ++ "### " ++ p.1 ++ "\n\n" ++
        p.2.foldl (fun a m =>
          a ++ "**" ++ timeStamp m ++ "** - [**" ++ m.sender ++ "**]: " ++
            m.content ++ "\n") "") ""
  let total := week.messages.length
  let senderLines := (senderCounts week.messages).foldl (fun acc p =>
    acc ++ "- **Messages from " ++ p.1 ++ "**: " ++ toString p.2 ++ " (" ++
      toFixed1 ((p.2 : Rat) / total * 100) ++ "%)\n") ""
  let t := countMessageTypes week.messages
  let typeLines :=
    "- **Text Messages**: " ++ toString t.text ++ "\n" ++
    "- **Links**: " ++ toString t.link ++ "\n" ++
    "- **Media (Photos/Videos)**: " ++ toString t.media ++ "\n" ++
    "- **Stickers**: " ++ toString t.sticker ++ "\n" ++
    (if t.empty > 0 then "- **Empty Messages**: " ++ toString t.empty ++ "\n" else "")
  let days0 := ceilDiv (dr.rangeEnd - dr.rangeStart) msPerDay
  let days := if days0 = 0 then 1 else days0
  header ++ msgLines ++
    "---\n\n" ++ "## Statistics\n\n" ++
    "- **Total Messages**: " ++ toString total ++ "\n" ++
    senderLines ++ typeLines ++
    "- **Average messages per day**: " ++ toFixed1 ((total : Rat) / (days : Int)) ++ "\n" ++
    "\n---\n\n" ++
    "*Exported by ConvoHelper Standalone Edition*\n" ++
    "*Export Date: " ++ exportDate ++ "*\n"

/-- `zip.file(filename, content)`: same name overwrites, new name
appends. -/
def zipFile (zip : List (String × String)) (name content : String) :
    List (String × String) :=
  match zip with
  | [] => [(name, content)]
  | (n, c) :: rest =>
    if n = name then (n, content) :: rest else (n, c) :: zipFile rest name content

/-- `Exporter.exportToZip`: one Markdown file per selected week key that
resolves in the week clusters, named
`${personName}_${weekKey}.md`; a zip is its list of
(filename, content) pairs. -/
def exportToZip (exportDate personName : String)
    (weekClusters : List (String × WeekCluster)) (selectedWeeks : List String) :
    List (String × String) :=
  selectedWeeks.foldl (fun zip wk =>
    match weekClusters.lookup wk with
    | none => zip
    | some w =>
      zipFile zip (personName ++ "_" ++ wk ++ ".md")
        (generateWeekMarkdown exportDate personName w)) []

/-- the export output as claim C9 states it: exactly one file per
selected week key present in the clusters, in selection order, named
`<partnerName>_<weekKey>.md` and holding the Markdown report of that
week alone; unselected weeks contribute nothing and an empty selection
yields no files. -/
def exportFilesClaim (exportDate personName : String)
    (weekClusters : List (String × WeekCluster)) (selectedWeeks : List String) :
    List (String × String) :=
  selectedWeeks.filterMap (fun wk =>
    (weekClusters.lookup wk).map (fun w =>
      (personName ++ "_" ++ wk ++ ".md", generateWeekMarkdown exportDate personName w)))

/-! ## Ingestion (`Parser.parseJSON`, `Parser.extractConversations`)

JSON values as JavaScript sees them after `JSON.parse`; the raw uploaded
text is modelled by its parse outcome (`none` for text the host JSON
parser rejects). -/

/-- a parsed JSON value. -/
inductive JVal where
  | jnull
  | jbool (b : Bool)
  | jnum (q : Rat)
  | jstr (s : String)
  | jarr (xs : List JVal)
  | jobj (fields : List (String × JVal))

/-- property access `v[k]`: `none` models `undefined`.  (Reading a
property of `null` throws instead; call sites model that case
explicitly.) -/
def jGet : JVal → String → Option JVal
  | .jobj fs, k => fs.lookup k
  | _, _ => none

/-- JavaScript truthiness of a possibly-undefined value. -/
def jTruthy : Option JVal → Bool
  | none => false
  | some .jnull => false
  | some (.jbool b) => b
  | some (.jnum q) => decide (q ≠ 0)
  | some (.jstr s) => decide (s ≠ "")
  | some (.jarr _) => true
  | some (.jobj _) => true

/-- `Object.keys` (and `for..in` order) for the value shapes that can
reach it here: object field order, array and string index keys. -/
def jKeys : JVal → List String
  | .jobj fs => fs.map (·.1)
  | .jarr xs => (List.range xs.length).map toString
  | .jstr s => (List.range s.length).map toString
  | _ => []

/-- prefix test on strings. -/
def strStarts (s pat : String) : Bool :=
  decide (s.data.take pat.data.length = pat.data)

/-- suffix test on strings. -/
def strEnds (s pat : String) : Bool := endsWithL s.data pat.data

/-- `Parser.validateStructure`: the fixed three-level key path must be
truthy, the chat history must have at least one key, and every key must
match the conversation-key pattern and hold an array. -/
def validateStructure (data : JVal) : Bool :=
  let dm := jGet data "Direct Message"
  let dms := dm.bind (jGet · "Direct Messages")
  let ch := dms.bind (jGet · "ChatHistory")
  if ¬ jTruthy dm then false
  else if ¬ jTruthy dms then false
  else if ¬ jTruthy ch then false
  else
    let chv := ch.getD .jnull
    let keys := jKeys chv
    if keys = [] then false
    else keys.all (fun k =>
      strStarts k "Chat History with " && strEnds k ":" &&
        (match jGet chv k with | some (.jarr _) => true | _ => false))

/-- `Parser.parseJSON` on the modelled raw text: a JSON parse failure
or a structure failure is rethrown as one wrapped error. -/
def parseJSON (raw : Option JVal) : Except String JVal :=
  match raw with
  | none => .error "Failed to parse JSON"
  | some v =>
    if validateStructure v then .ok v else .error "Failed to parse JSON: Invalid JSON structure"

/-- `Parser.validateMessage` on a JSON element: reading `.Date` of a
`null` element throws (`TypeError`); otherwise the three truthiness /
definedness checks of the source. -/
def validateMessage : JVal → Except String Bool
  | .jnull => .error "TypeError"
  | m =>
    .ok (jTruthy (jGet m "Date") && jTruthy (jGet m "From") &&
      (jGet m "Content").isSome)

/-- `Parser.parseMessage` on a JSON element: the source calls string
methods on `Date` and `Content`, so non-string values there throw.  (A
non-string `From` would be kept as-is by the source; the model restricts
senders to strings, which only narrows inputs no claim mentions.) -/
def parseMessageJVal (tz : Int) (v : JVal) : Except String Msg :=
  match jGet v "Date", jGet v "From", jGet v "Content" with
  | some (.jstr d), some (.jstr f), some (.jstr c) => parseMessage tz ⟨d, f, c⟩
  | _, _, _ => .error "TypeError"

/-- first-occurrence replacement, as `String.prototype.replace` with a
string pattern. -/
def replaceFirstL (pat rep : List Char) : List Char → List Char
  | [] => []
  | c :: cs =>
    if (c :: cs).take pat.length = pat then rep ++ (c :: cs).drop pat.length
    else c :: replaceFirstL pat rep cs

/-- partner name of a conversation key:
`key.replace("Chat History with ", "").replace(":", "")`. -/
def personName (k : String) : String :=
  ⟨replaceFirstL [':'] [] (replaceFirstL "Chat History with ".data [] k.data)⟩

/-- validate-and-parse loop over the elements of one conversation. -/
def extractMsgs (tz : Int) : List JVal → Except String (List Msg)
  | [] => .ok []
  | v :: rest =>
    match validateMessage v with
    | .error e => .error e
    | .ok false => extractMsgs tz rest
    | .ok true =>
      match parseMessageJVal tz v with
      | .error e => .error e
      | .ok m =>
        match extractMsgs tz rest with
        | .error e => .error e
        | .ok r => .ok (m :: r)

/-- conversation loop of `Parser.extractConversations`: conversations
with no valid message are omitted.  (Distinct conversation keys are
assumed to yield distinct partner names; the source would otherwise
overwrite, which no claim exercises.) -/
def extractConvsAux (tz : Int) : List (String × JVal) →
    Except String (List (String × List Msg))
  | [] => .ok []
  | (k, v) :: rest =>
    match v with
    | .jarr xs =>
      match extractMsgs tz xs with
      | .error e => .error e
      | .ok ms =>
        match extractConvsAux tz rest with
        | .error e => .error e
        | .ok r => .ok (if ms ≠ [] then (personName k, ms) :: r else r)
    | _ => .error "TypeError"

/-- `Parser.extractConversations`.  In the pipeline this runs only
after `validateStructure`, so the chat history is an object; the
non-object fallback returns no conversations. -/
def extractConversations (tz : Int) (data : JVal) :
    Except String (List (String × List Msg)) :=
  let ch := ((jGet data "Direct Message").bind (jGet · "Direct Messages")).bind
    (jGet · "ChatHistory")
  match ch.getD .jnull with
  | .jobj fs => extractConvsAux tz fs
  | _ => .ok []

/-! ## Processing pipeline and session state (`processData`) -/

/-- per-partner processed data (`Processor.processConversations`
entries). -/
structure ProcessedConv where
  messages : List Msg
  totalMessages : Nat
  weekClusters : List (String × WeekCluster)
  monthGroups : List (String × MonthGroup)
  firstMessage : Option Msg
  lastMessage : Option Msg
deriving DecidableEq, Repr

/-- `Processor.processConversations`: sort each conversation by
timestamp (stable, as the comparator sort of the source), cluster by
weeks, group into months. -/
def processConversations (convs : List (String × List Msg)) :
    List (String × ProcessedConv) :=
  convs.map (fun p =>
    let sorted := sortByL (fun a b => decide (a.timestamp ≤ b.timestamp)) p.2
    let wc := clusterByWeeks sorted
    (p.1, ⟨sorted, sorted.length, wc, groupIntoMonths wc, sorted.head?,
      sorted.getLast?⟩))

/-- overview statistics (`Stats.generateOverviewStats`); the date range
is by timestamp, `new Date(null)` being the epoch. -/
structure OverviewStats where
  totalMessages : Nat
  totalConversations : Nat
  rangeStart : Int
  rangeEnd : Int
  distribution : List (String × Nat × Option Rat)
  topConversations : List (String × Nat)
  messagesByDate : List (String × Nat)
deriving DecidableEq, Repr

/-- insertion-ordered string-keyed counters. -/
def bumpKey (acc : List (String × Nat)) (k : String) : List (String × Nat) :=
  match acc with
  | [] => [(k, 1)]
  | (k', n) :: rest =>
    if k' = k then (k', n + 1) :: rest else (k', n) :: bumpKey rest k

/-- `Processor.getMessagesByDate` over all conversations (only the
per-date counts; the attached `Date` object is derivable). -/
def getMessagesByDate (processed : List (String × ProcessedConv)) :
    List (String × Nat) :=
  processed.foldl (fun acc p => p.2.messages.foldl (fun a m => bumpKey a (dayKey m)) acc) []

/-- `Stats.generateOverviewStats`. -/
def generateOverviewStats (processed : List (String × ProcessedConv)) :
    OverviewStats :=
  let total := (processed.map (·.2.totalMessages)).sum
  let firsts := processed.filterMap (fun p => p.2.firstMessage.map (·.timestamp))
  let lasts := processed.filterMap (fun p => p.2.lastMessage.map (·.timestamp))
  { totalMessages := total
    totalConversations := processed.length
    rangeStart := (firsts.foldl (fun a t => match a with
      | none => some t
      | some e => some (if t < e then t else e)) none).getD 0
    rangeEnd := (lasts.foldl (fun a t => match a with
      | none => some t
      | some e => some (if t > e then t else e)) none).getD 0
    distribution := processed.map (fun p =>
      (p.1, p.2.totalMessages, jsPct p.2.totalMessages total))
    topConversations := sortByL (fun a b => a.2 ≥ b.2)
      (processed.map (fun p => (p.1, p.2.totalMessages)))
    messagesByDate := getMessagesByDate processed }

/-- index increment in a fixed-size counter array. -/
def bumpIdx (l : List Nat) (i : Nat) : List Nat := l.set i (l.getD i 0 + 1)

/-- `Processor.getMessagesByDayOfWeek`. -/
def getMessagesByDayOfWeek (messages : List Msg) : List Nat :=
  messages.foldl (fun a m => bumpIdx a (getDayOfWeek m.timestamp).toNat)
    (List.replicate 7 0)

/-- first index of the maximum (`indexOf(Math.max(...))`). -/
def idxOfMax (l : List Nat) : Nat := l.indexOf (l.foldl max 0)

/-- `keys.reduce((a, b) => counts[a] > counts[b] ? a : b, keys[0])`. -/
def reduceMaxKey (counts : List (String × Nat)) : Option String :=
  match counts.map (·.1) with
  | [] => none
  | k0 :: _ =>
    some ((counts.map (·.1)).foldl
      (fun a b =>
        if (counts.lookup a).getD 0 > (counts.lookup b).getD 0 then a else b) k0)

/-- peak-activity report (`Processor.findPeakActivity`; display labels
are presentation and omitted). -/
structure PeakActivity where
  peakHour : Nat × Nat
  peakDay : Nat × Nat
  peakWeek : Option String × Nat
  peakMonth : Option String × Nat
  peakDate : Option String × Nat
deriving DecidableEq, Repr

/-- `Processor.findPeakActivity`. -/
def findPeakActivity (processed : List (String × ProcessedConv)) : PeakActivity :=
  let allMessages := processed.foldl (fun a p => a ++ p.2.messages) []
  let hourCounts := allMessages.foldl (fun a m => bumpIdx a m.hour.toNat)
    (List.replicate 24 0)
  let dayCounts := allMessages.foldl
    (fun a m => bumpIdx a (getDayOfWeek m.timestamp).toNat) (List.replicate 7 0)
  let weekCounts := allMessages.foldl (fun a m => bumpKey a (wkKey m)) []
  let monthCounts := allMessages.foldl (fun a m => bumpKey a (moKey m)) []
  let dateCounts := allMessages.foldl (fun a m => bumpKey a (dayKey m)) []
  let pw := reduceMaxKey weekCounts
  let pm := reduceMaxKey monthCounts
  let pd := reduceMaxKey dateCounts
  { peakHour := (idxOfMax hourCounts, hourCounts.getD (idxOfMax hourCounts) 0)
    peakDay := (idxOfMax dayCounts, dayCounts.getD (idxOfMax dayCounts) 0)
    peakWeek := (pw, ((pw.bind weekCounts.lookup).getD 0))
    peakMonth := (pm, ((pm.bind monthCounts.lookup).getD 0))
    peakDate := (pd, ((pd.bind dateCounts.lookup).getD 0)) }

/-- activity categories (`Processor.categorizeByActivity`); each entry
is (name, floored days since the last message). -/
structure ActivityCategories where
  active : List (String × Int)
  recent : List (String × Int)
  dormant : List (String × Int)
deriving DecidableEq, Repr

/-- `Processor.categorizeByActivity`. -/
def categorizeByActivity (now : Int) (processed : List (String × ProcessedConv)) :
    ActivityCategories :=
  processed.foldl (fun cat p =>
    let lastTs := (p.2.lastMessage.map (·.timestamp)).getD 0
    let daysSince : Rat := ((now - lastTs : Int) : Rat) / msPerDay
    let entry := (p.1, ⌊daysSince⌋)
    if daysSince ≤ 30 then { cat with active := cat.active ++ [entry] }
    else if daysSince ≤ 90 then { cat with recent := cat.recent ++ [entry] }
    else { cat with dormant := cat.dormant ++ [entry] }) ⟨[], [], []⟩

/-- `StatsGeneral.calculateAllBalanceScores` (sorted descending by
score). -/
def calculateAllBalanceScores (uid : Option String)
    (processed : List (String × ProcessedConv)) : List (String × BalanceScore) :=
  sortByL (fun a b => decide (a.2.score ≥ b.2.score))
    (processed.map (fun p => (p.1, calculateBalanceScore uid p.2.messages)))

/-- `StatsGeneral.calculateAllDensityScores` (density and its
percentage of the maximum, sorted descending by density). -/
def calculateAllDensityScores (processed : List (String × ProcessedConv)) :
    List (String × Rat × Rat) :=
  let raw := processed.map (fun p =>
    let firstTs := (p.2.firstMessage.map (·.timestamp)).getD 0
    let lastTs := (p.2.lastMessage.map (·.timestamp)).getD 0
    let days0 := ceilDiv (lastTs - firstTs) msPerDay
    let days := if days0 = 0 then 1 else days0
    (p.1, (p.2.totalMessages : Rat) / (days : Int)))
  let maxD := (raw.map (·.2)).foldl max 0
  sortByL (fun a b => decide (a.2.1 ≥ b.2.1))
    (raw.map (fun p => (p.1, p.2, if maxD > 0 then p.2 / maxD * 100 else 0)))

/-- `content.trim().split(/\s+/).length`: the number of maximal
non-whitespace runs of the trimmed string, except that the empty
trimmed string splits to `[""]` of length 1. -/
def countWordsJS (s : String) : Nat :=
  let t := trimL s.data
  if t = [] then 1
  else (t.foldl (fun (st : Nat × Bool) c =>
    if jsWs c then (st.1, false)
    else (if st.2 then st.1 else st.1 + 1, true)) (0, false)).1

/-- message-length distribution (`StatsGeneral.calculateGlobalLengthDistribution`). -/
structure LengthDistribution where
  short : Nat
  medium : Nat
  long : Nat
  pctShort : Option Rat
  pctMedium : Option Rat
  pctLong : Option Rat
deriving DecidableEq, Repr

/-- `StatsGeneral.calculateGlobalLengthDistribution`; the `0` the
source reports for an empty distribution is modelled as `none` like the
other guarded percentages. -/
def calculateGlobalLengthDistribution (messages : List Msg) : LengthDistribution :=
  let counts := messages.foldl (fun (st : Nat × Nat × Nat) m =>
    if m.type = .text ∧ m.content ≠ "" then
      let w := countWordsJS m.content
      if w ≤ 5 then (st.1 + 1, st.2.1, st.2.2)
      else if w ≤ 20 then (st.1, st.2.1 + 1, st.2.2)
      else (st.1, st.2.1, st.2.2 + 1)
    else st) (0, 0, 0)
  let total := counts.1 + counts.2.1 + counts.2.2
  ⟨counts.1, counts.2.1, counts.2.2,
    jsPct counts.1 total, jsPct counts.2.1 total, jsPct counts.2.2 total⟩

/-- `StatsGeneral.calculateGlobalContentDistribution` (same computation
as the per-person breakdown). -/
def calculateGlobalContentDistribution (messages : List Msg) : ContentBreakdown :=
  let b := countMessageTypes messages
  let total := messages.length
  ⟨b, jsPct b.text total, jsPct b.link total, jsPct b.media total,
    jsPct b.sticker total, jsPct b.empty total⟩

/-- `Processor.calculateMessageVelocity` (messages per active hour;
`toFixed(2)` dropped). -/
def calculateMessageVelocity (messages : List Msg) : Rat :=
  if messages = [] then 0
  else
    let byDate := groupByKey dayKey messages
    let activeHours := (byDate.map (fun p => (dedupL (p.2.map (·.hour))).length)).sum
    if activeHours > 0 then (messages.length : Rat) / (activeHours : Nat) else 0

/-- enhanced overview statistics
(`StatsGeneral.generateEnhancedOverviewStats`). -/
structure EnhancedOverview where
  basic : OverviewStats
  dayOfWeekDistribution : List Nat
  peakActivity : PeakActivity
  conversationBalanceScores : List (String × BalanceScore)
  conversationDensityScores : List (String × Rat × Rat)
  activityCategories : ActivityCategories
  contentTypeDistribution : ContentBreakdown
  messageLengthDistribution : LengthDistribution
  messageVelocity : Rat
deriving DecidableEq, Repr

/-- `StatsGeneral.generateEnhancedOverviewStats`. -/
def generateEnhancedOverviewStats (uid : Option String) (now : Int)
    (processed : List (String × ProcessedConv)) : EnhancedOverview :=
  let allMessages := processed.foldl (fun a p => a ++ p.2.messages) []
  { basic := generateOverviewStats processed
    dayOfWeekDistribution := getMessagesByDayOfWeek allMessages
    peakActivity := findPeakActivity processed
    conversationBalanceScores := calculateAllBalanceScores uid processed
    conversationDensityScores := calculateAllDensityScores processed
    activityCategories := categorizeByActivity now processed
    contentTypeDistribution := calculateGlobalContentDistribution allMessages
    messageLengthDistribution := calculateGlobalLengthDistribution allMessages
    messageVelocity := calculateMessageVelocity allMessages }

/-- the session state (`window.appData`): the raw upload (modelled by
its JSON parse outcome), the selected identity, and the derived
structures. -/
structure SessionState where
  rawData : Option JVal
  userIdentity : Option String
  conversations : Option (List (String × List Msg))
  processed : Option (List (String × ProcessedConv))
  overviewStats : Option OverviewStats
  enhancedOverviewStats : Option EnhancedOverview

/-- `processData`: the pipeline with its session-state assignments in
source order.  The second component reports how the `try` block ended;
the first is the session state afterwards (the `catch` only shows a
toast and navigates, restoring nothing).  The timezone offset and the
clock are passed explicitly; the UI progress calls between stages are
presentation and carry no state. -/
def processDataRun (tz now : Int) (s : SessionState) :
    SessionState × Except String Unit :=
  match s.userIdentity with
  | none => (s, .ok ())
  | some u =>
    if u = "" then (s, .ok ())
    else
      match parseJSON s.rawData with
      | .error e => (s, .error e)
      | .ok data =>
        match extractConversations tz data with
        | .error e => (s, .error e)
        | .ok convs =>
          let s1 := { s with conversations := some convs }
          let processed := processConversations convs
          let s2 := { s1 with processed := some processed }
          let s3 := { s2 with overviewStats := some (generateOverviewStats processed) }
          let s4 := { s3 with
            enhancedOverviewStats :=
              some (generateEnhancedOverviewStats s.userIdentity now processed) }
          (s4, .ok ())

/-! # Theorems

One theorem per claim of the frozen claim list, with the supporting
lemmas they share. -/

/-! ## C1: clustering conserves messages -/

/-- total count over the week clusters. -/
def weekCountSum (ws : List (String × WeekCluster)) : Nat :=
  (ws.map (fun p => p.2.count)).sum

/-- total `totalMessages` over the month groups. -/
def monthTotalSum (ms : List (String × MonthGroup)) : Nat :=
  (ms.map (fun p => p.2.totalMessages)).sum

/-- the invariant of the clusters built by `clusterByWeeks`: the count
is the number of member messages, every cluster is nonempty, the key is
the formatted (year, week) of the cluster, and every member message has
the key of its own calendar year and ISO week. -/
def WeekInv (p : String × WeekCluster) : Prop :=
  p.2.count = p.2.messages.length ∧ p.2.messages ≠ [] ∧
  p.1 = toString p.2.year ++ "-W" ++ padStart2 (toString p.2.week) ∧
  ∀ m ∈ p.2.messages, p.1 = wkKey m

@[simp] lemma weekCountSum_nil : weekCountSum [] = 0 := rfl

@[simp] lemma weekCountSum_cons (p : String × WeekCluster)
    (l : List (String × WeekCluster)) :
    weekCountSum (p :: l) = p.2.count + weekCountSum l := by
  simp [weekCountSum]

@[simp] lemma monthTotalSum_nil : monthTotalSum [] = 0 := rfl

@[simp] lemma monthTotalSum_cons (p : String × MonthGroup)
    (l : List (String × MonthGroup)) :
    monthTotalSum (p :: l) = p.2.totalMessages + monthTotalSum l := by
  simp [monthTotalSum]

lemma weekCountSum_addMsg (ws : List (String × WeekCluster)) (m : Msg) :
    weekCountSum (addMsgToWeeks ws m) = weekCountSum ws + 1 := by
  induction ws with
  | nil => simp [addMsgToWeeks]
  | cons p rest ih =>
    obtain ⟨k, w⟩ := p
    by_cases h : k = wkKey m
    · simp only [addMsgToWeeks, if_pos h, weekCountSum_cons]
      omega
    · simp only [addMsgToWeeks, if_neg h, weekCountSum_cons]
      omega

lemma addMsgToWeeks_inv (ws : List (String × WeekCluster)) (m : Msg) :
    (∀ p ∈ ws, WeekInv p) → ∀ p ∈ addMsgToWeeks ws m, WeekInv p := by
  induction ws with
  | nil =>
    intro _ p hp
    simp only [addMsgToWeeks, List.mem_singleton] at hp
    subst hp
    refine ⟨rfl, by simp, rfl, ?_⟩
    intro x hx
    simp only [List.mem_singleton] at hx
    subst hx
    rfl
  | cons q rest ih =>
    obtain ⟨k, w⟩ := q
    intro h p hp
    have hq : WeekInv (k, w) := h _ (List.mem_cons_self _ _)
    have hr : ∀ p ∈ rest, WeekInv p := fun p hp => h p (List.mem_cons_of_mem _ hp)
    by_cases hk : k = wkKey m
    · simp only [addMsgToWeeks, if_pos hk] at hp
      rcases List.mem_cons.mp hp with h1 | h2
      · subst h1
        obtain ⟨hc, _, hkey, hmem⟩ := hq
        replace hc : w.count = w.messages.length := hc
        replace hkey : k = toString w.year ++ "-W" ++ padStart2 (toString w.week) := hkey
        replace hmem : ∀ x ∈ w.messages, k = wkKey x := hmem
        refine ⟨by simp [WeekInv, hc], by simp [WeekInv], hkey, ?_⟩
        intro x hx
        simp only [List.mem_append, List.mem_singleton] at hx
        rcases hx with hx | hx
        · exact hmem x hx
        · subst hx; exact hk
      · exact hr p h2
    · simp only [addMsgToWeeks, if_neg hk] at hp
      rcases List.mem_cons.mp hp with h1 | h2
      · subst h1; exact hq
      · exact ih hr p h2

lemma foldl_addMsg_sum (msgs : List Msg) (ws : List (String × WeekCluster)) :
    weekCountSum (msgs.foldl addMsgToWeeks ws) = weekCountSum ws + msgs.length := by
  induction msgs generalizing ws with
  | nil => simp
  | cons m rest ih =>
    simp only [List.foldl_cons, List.length_cons]
    rw [ih, weekCountSum_addMsg]
    omega

lemma foldl_addMsg_inv (msgs : List Msg) (ws : List (String × WeekCluster)) :
    (∀ p ∈ ws, WeekInv p) → ∀ p ∈ msgs.foldl addMsgToWeeks ws, WeekInv p := by
  induction msgs generalizing ws with
  | nil => intro h; exact h
  | cons m rest ih =>
    intro h
    exact ih _ (addMsgToWeeks_inv ws m h)

/-- the structural facts about `clusterByWeeks` shared by C1, C9 and
C10: counts agree with membership, clusters are nonempty, keys have the
`${year}-W${week}` format, every member carries the key of its own
calendar year and ISO week, and the date range is derived from the
cluster year and week. -/
lemma clusterByWeeks_facts (msgs : List Msg) :
    ∀ p ∈ clusterByWeeks msgs,
      p.2.count = p.2.messages.length ∧ p.2.messages ≠ [] ∧
      p.1 = toString p.2.year ++ "-W" ++ padStart2 (toString p.2.week) ∧
      (∀ m ∈ p.2.messages, p.1 = wkKey m) ∧
      p.2.dateRange = some (getWeekDateRange p.2.year p.2.week) := by
  intro p hp
  simp only [clusterByWeeks, List.mem_map] at hp
  obtain ⟨q, hq, hpq⟩ := hp
  have hinv : WeekInv q := foldl_addMsg_inv msgs [] (by simp) q hq
  obtain ⟨hc, hne, hkey, hmem⟩ := hinv
  subst hpq
  exact ⟨hc, hne, hkey, hmem, rfl⟩

lemma clusterByWeeks_countSum (msgs : List Msg) :
    weekCountSum (clusterByWeeks msgs) = msgs.length := by
  have h := foldl_addMsg_sum msgs []
  simp only [weekCountSum, clusterByWeeks, List.map_map] at *
  simpa using h

lemma monthTotalSum_addWeekEntry (fm : Msg) (entry : String × WeekCluster)
    (ms : List (String × MonthGroup)) :
    monthTotalSum (addWeekEntry fm entry ms) = monthTotalSum ms + entry.2.count := by
  induction ms with
  | nil => simp [addWeekEntry]
  | cons q rest ih =>
    obtain ⟨k, g⟩ := q
    by_cases hk : k = moKey fm
    · simp only [addWeekEntry, if_pos hk, monthTotalSum_cons]
      omega
    · simp only [addWeekEntry, if_neg hk, monthTotalSum_cons]
      omega

lemma monthTotalSum_addWeek (ms : List (String × MonthGroup))
    (entry : String × WeekCluster) :
    monthTotalSum (addWeekToMonths ms entry) =
      monthTotalSum ms + (if entry.2.messages = [] then 0 else entry.2.count) := by
  rcases he : entry.2.messages with _ | ⟨fm, tl⟩
  · simp [addWeekToMonths, he]
  · simp only [addWeekToMonths, he, monthTotalSum_addWeekEntry]
    simp

lemma foldl_addWeek_sum (entries : List (String × WeekCluster))
    (ms : List (String × MonthGroup)) :
    monthTotalSum (entries.foldl addWeekToMonths ms) =
      monthTotalSum ms +
        (entries.map (fun e => if e.2.messages = [] then 0 else e.2.count)).sum := by
  induction entries generalizing ms with
  | nil => simp
  | cons e rest ih =>
    simp only [List.foldl_cons, List.map_cons, List.sum_cons]
    rw [ih, monthTotalSum_addWeek]
    omega

lemma groupIntoMonths_sum (weeks : List (String × WeekCluster)) :
    monthTotalSum (groupIntoMonths weeks) =
      (weeks.map (fun e => if e.2.messages = [] then 0 else e.2.count)).sum := by
  have h := foldl_addWeek_sum weeks []
  simp only [monthTotalSum, groupIntoMonths, List.map_map] at *
  simpa using h

/-- C1.  For every conversation, clustering conserves messages: the sum
of `count` over the week clusters of `clusterByWeeks` equals the number
of messages, and the sum of `totalMessages` over the month groups of
`groupIntoMonths` equals the same number — no message is lost or
duplicated across clustering. -/
theorem clustering_conserves_messages (msgs : List Msg) :
    weekCountSum (clusterByWeeks msgs) = msgs.length ∧
    monthTotalSum (groupIntoMonths (clusterByWeeks msgs)) = msgs.length := by
  refine ⟨clusterByWeeks_countSum msgs, ?_⟩
  rw [groupIntoMonths_sum]
  have hfacts := clusterByWeeks_facts msgs
  have : ((clusterByWeeks msgs).map
      (fun e => if e.2.messages = [] then 0 else e.2.count)).sum =
      ((clusterByWeeks msgs).map (fun p => p.2.count)).sum := by
    apply congrArg
    apply List.map_congr_left
    intro p hp
    obtain ⟨_, hne, _, _, _⟩ := hfacts p hp
    simp [hne]
  rw [this]
  exact clusterByWeeks_countSum msgs

/-! ## C4: balance score -/

lemma length_filter_sender_split (l : List Msg) (i : String) :
    (l.filter (fun m => m.sender = i)).length +
      (l.filter (fun m => m.sender ≠ i)).length = l.length := by
  induction l with
  | nil => simp
  | cons m rest ih =>
    simp only [ne_eq, decide_not] at ih ⊢
    simp only [List.filter_cons]
    by_cases h : m.sender = i
    · simp [h]
      omega
    · simp [h]
      omega

/-- evaluation of `calculateBalanceScore` on a nonempty conversation:
the denominator `youCount + themCount` is the conversation length. -/
lemma calculateBalanceScore_eval (uid : Option String) (messages : List Msg)
    (hne : messages ≠ []) :
    calculateBalanceScore uid messages =
      { score := 100 - |50 -
          (((messages.filter
              (fun m => m.sender = getUserIdentity uid messages)).length : Rat) /
            (messages.length : Rat) * 100)| * 2
        yourPercentage :=
          (((messages.filter
              (fun m => m.sender = getUserIdentity uid messages)).length : Rat) /
            (messages.length : Rat) * 100)
        theirPercentage :=
          (((messages.filter
              (fun m => m.sender ≠ getUserIdentity uid messages)).length : Rat) /
            (messages.length : Rat) * 100)
        youCount := (messages.filter
          (fun m => m.sender = getUserIdentity uid messages)).length
        themCount := (messages.filter
          (fun m => m.sender ≠ getUserIdentity uid messages)).length } := by
  have hsplit := length_filter_sender_split messages (getUserIdentity uid messages)
  have hlen0 : messages.length ≠ 0 := by
    simpa [List.length_eq_zero] using hne
  have h0 : (messages.filter (fun m =>
      m.sender = getUserIdentity uid messages)).length +
      (messages.filter (fun m =>
        m.sender ≠ getUserIdentity uid messages)).length ≠ 0 := by
    rw [hsplit]
    exact hlen0
  simp only [calculateBalanceScore, if_neg hne, if_neg h0, if_neg hlen0, hsplit]

/-- C4.  For every nonempty conversation, with a session identity
actually selected (the UI enforces one before processing), the balance
score is `100 − 2·|50 − yourPercentage|`; a single-sender conversation
scores 0, and an exact 50/50 split between two senders scores 100,
under the identity-fallback resolution of "you". -/
theorem balance_score_spec (uid : Option String) (u : String) (messages : List Msg)
    (hne : messages ≠ []) (hu : uid = some u) (hu' : u ≠ "") :
    ((calculateBalanceScore uid messages).score =
      100 - 2 * |50 - (calculateBalanceScore uid messages).yourPercentage|) ∧
    ((∀ a ∈ messages, ∀ b ∈ messages, a.sender = b.sender) →
      (calculateBalanceScore uid messages).score = 0) ∧
    (∀ a b : String, a ≠ b →
      (∀ m ∈ messages, m.sender = a ∨ m.sender = b) →
      (messages.filter (fun m => m.sender = a)).length =
        (messages.filter (fun m => m.sender = b)).length →
      (calculateBalanceScore uid messages).score = 100) := by
  rw [calculateBalanceScore_eval uid messages hne]
  have hlen : messages.length ≠ 0 := by simpa [List.length_eq_zero] using hne
  have hlenq : (messages.length : Rat) ≠ 0 := by exact_mod_cast hlen
  refine ⟨by ring, ?_, ?_⟩
  · -- single-sender conversation
    intro hsame
    obtain ⟨m0, rest, rfl⟩ : ∃ m0 rest, messages = m0 :: rest := by
      cases messages with
      | nil => exact absurd rfl hne
      | cons x l => exact ⟨x, l, rfl⟩
    have hall : ∀ m ∈ m0 :: rest, m.sender = m0.sender := fun m hm =>
      hsame m hm m0 (List.mem_cons_self _ _)
    by_cases hcase : getUserIdentity uid (m0 :: rest) = m0.sender
    · -- everyone is "you": percentage 100
      have hfy : (m0 :: rest).filter
          (fun m => m.sender = getUserIdentity uid (m0 :: rest)) = m0 :: rest := by
        rw [List.filter_eq_self]
        intro x hx
        simp only [decide_eq_true_eq]
        rw [hall x hx, hcase]
      have hpct : (((m0 :: rest).filter
          (fun m => m.sender = getUserIdentity uid (m0 :: rest))).length : Rat) /
          ((m0 :: rest).length : Rat) * 100 = 100 := by
        rw [hfy, div_self hlenq]
        norm_num
      simp only [hpct]
      rw [show |(50 : Rat) - 100| = 50 by
        rw [abs_sub_comm, abs_of_nonneg] <;> norm_num]
      norm_num
    · -- nobody is "you": percentage 0
      have hfy : (m0 :: rest).filter
          (fun m => m.sender = getUserIdentity uid (m0 :: rest)) = [] := by
        rw [List.filter_eq_nil_iff]
        intro x hx
        simp only [decide_eq_true_eq]
        rw [hall x hx]
        exact fun hh => hcase hh.symm
      have hpct : (((m0 :: rest).filter
          (fun m => m.sender = getUserIdentity uid (m0 :: rest))).length : Rat) /
          ((m0 :: rest).length : Rat) * 100 = 0 := by
        rw [hfy]
        simp
      simp only [hpct]
      rw [show |(50 : Rat) - 0| = 50 by rw [abs_of_nonneg] <;> norm_num]
      norm_num
  · -- exact 50/50 split between two senders
    intro a b hab hmem hsplit
    -- the resolved identity is one of the two senders
    have hiab : getUserIdentity uid messages = a ∨
        getUserIdentity uid messages = b := by
      obtain ⟨m0, rest, hml⟩ : ∃ m0 rest, messages = m0 :: rest := by
        cases messages with
        | nil => exact absurd rfl hne
        | cons x l => exact ⟨x, l, rfl⟩
      rw [hu]
      simp only [getUserIdentity, if_neg hu']
      by_cases hc : (messages.map (·.sender)).contains u
      · rw [if_pos hc]
        have : u ∈ messages.map (·.sender) := List.elem_iff.mp hc
        obtain ⟨m, hm, hmu⟩ := List.mem_map.mp this
        rcases hmem m hm with h | h
        · left; rw [← hmu, h]
        · right; rw [← hmu, h]
      · rw [if_neg hc, hml]
        exact hmem m0 (hml ▸ List.mem_cons_self _ _)
    -- on a two-sender conversation the "them" filter counts the other sender
    have hswap : ∀ c d : String, c ≠ d →
        (∀ m ∈ messages, m.sender = c ∨ m.sender = d) →
        (messages.filter (fun m => m.sender ≠ c)).length =
          (messages.filter (fun m => m.sender = d)).length := by
      intro c d hcd hcd2
      congr 1
      apply List.filter_congr
      intro m hm
      rcases hcd2 m hm with h | h
      · simp [h, hcd]
      · simp [h, Ne.symm hcd]
    have htot2 : (messages.filter (fun m => m.sender = a)).length +
        (messages.filter (fun m => m.sender = b)).length = messages.length := by
      have := length_filter_sender_split messages a
      rw [hswap a b hab hmem] at this
      exact this
    have hy : (messages.filter
        (fun m => m.sender = getUserIdentity uid messages)).length =
        (messages.filter (fun m => m.sender = a)).length := by
      rcases hiab with h | h
      · rw [h]
      · rw [h, ← hsplit]
    have hk2 : (messages.filter (fun m => m.sender = a)).length * 2 =
        messages.length := by
      omega
    have hpct : (((messages.filter
        (fun m => m.sender = getUserIdentity uid messages)).length : Rat)) /
        ((messages.length : Rat)) * 100 = 50 := by
      rw [hy, ← hk2]
      push_cast
      have hkq : ((messages.filter (fun m => m.sender = a)).length : Rat) ≠ 0 := by
        intro hz
        apply hlen
        have : (messages.filter (fun m => m.sender = a)).length = 0 := by
          exact_mod_cast hz
        omega
      field_simp
      ring
    simp only [hpct]
    norm_num

/-- a minimal concrete message for witnesses whose claims depend only on
timestamp and sender. -/
def testMsg (ts : Int) (s : String) : Msg :=
  ⟨ts, s, "hi", .text, 0, 0, 0, 0, 0, 0⟩

/-- witness for C4 at a concrete two-message 50/50 conversation. -/
theorem balance_score_spec_witness :
    (calculateBalanceScore (some "a") [testMsg 0 "a", testMsg 60000 "b"]).score
      = 100 := by
  have h := balance_score_spec (some "a") "a" [testMsg 0 "a", testMsg 60000 "b"]
    (by decide) rfl (by decide)
  exact h.2.2 "a" "b" (by decide) (by decide) (by decide)

/-! ## C5: message bursts -/

/-- run builder shared with the claim-side description of
`detectMessageBursts`: `cur` is the open run; a message within the
30-minute threshold of the last one extends it, otherwise the run
closes and a new one opens. -/
def runsFrom (cur : List Msg) : List Msg → List (List Msg)
  | [] => [cur]
  | m :: rest =>
    match cur.getLast? with
    | none => runsFrom [m] rest
    | some lastM =>
      if ((m.timestamp - lastM.timestamp : Int) : Rat) / 60000 ≤ 30 then
        runsFrom (cur ++ [m]) rest
      else cur :: runsFrom [m] rest

/-- the maximal runs of messages each within 30 minutes of the previous
one, as the claim describes them. -/
def maximalRuns : List Msg → List (List Msg)
  | [] => []
  | m :: rest => runsFrom [m] rest

lemma burstsAux_eq_runsFrom (rest : List Msg) : ∀ cur,
    burstsAux cur rest =
      ((runsFrom cur rest).filter (fun r => r.length ≥ 5)).map mkBurst := by
  induction rest with
  | nil =>
    intro cur
    by_cases h : cur.length ≥ 5 <;>
      simp [burstsAux, runsFrom, List.filter_cons, h]
  | cons m rest ih =>
    intro cur
    cases hc : cur.getLast? with
    | none => simp only [burstsAux, runsFrom, hc, ih]
    | some lastM =>
      simp only [burstsAux, runsFrom, hc]
      by_cases hw : ((m.timestamp - lastM.timestamp : Int) : Rat) / 60000 ≤ 30
      · rw [if_pos hw, if_pos hw, ih]
      · rw [if_neg hw, if_neg hw, ih, List.filter_cons]
        by_cases h5 : cur.length ≥ 5
        · rw [if_pos h5, if_pos (by simpa using h5)]
          simp
        · rw [if_neg h5, if_neg (by simpa using h5)]
          simp

lemma getLast?_none_eq_nil {l : List Msg} (h : l.getLast? = none) : l = [] := by
  cases l with
  | nil => rfl
  | cons a t =>
    exfalso
    have : (a :: t).getLast? = some ((a :: t).getLast (by simp)) := by
      rw [List.getLast?_eq_getLast]
    rw [this] at h
    exact Option.noConfusion h

lemma runsFrom_join (rest : List Msg) : ∀ cur,
    (runsFrom cur rest).flatten = cur ++ rest := by
  induction rest with
  | nil => intro cur; simp [runsFrom]
  | cons m rest ih =>
    intro cur
    cases hc : cur.getLast? with
    | none =>
      have hnil := getLast?_none_eq_nil hc
      subst hnil
      simp [runsFrom, ih]
    | some lastM =>
      simp only [runsFrom, hc]
      by_cases hw : ((m.timestamp - lastM.timestamp : Int) : Rat) / 60000 ≤ 30
      · rw [if_pos hw, ih]
        simp
      · rw [if_neg hw]
        simp only [List.flatten_cons, ih]
        simp

lemma runsFrom_ne_nil (rest : List Msg) : ∀ cur, cur ≠ [] →
    ∀ r ∈ runsFrom cur rest, r ≠ [] := by
  induction rest with
  | nil =>
    intro cur hcur r hr
    simp only [runsFrom, List.mem_singleton] at hr
    subst hr; exact hcur
  | cons m rest ih =>
    intro cur hcur r hr
    cases hc : cur.getLast? with
    | none => exact absurd (getLast?_none_eq_nil hc) hcur
    | some lastM =>
      by_cases hw : ((m.timestamp - lastM.timestamp : Int) : Rat) / 60000 ≤ 30
      · simp only [runsFrom, hc, if_pos hw] at hr
        exact ih (cur ++ [m]) (by simp) r hr
      · simp only [runsFrom, hc, if_neg hw] at hr
        rcases List.mem_cons.mp hr with h | h
        · subst h; exact hcur
        · exact ih [m] (by simp) r h

/-- every produced run is a chain for any relation that holds along the
whole input (taking `R` to be timestamp order shows runs are sorted). -/
lemma runsFrom_chainR {R : Msg → Msg → Prop} (rest : List Msg) : ∀ cur,
    List.Chain' R (cur ++ rest) → ∀ r ∈ runsFrom cur rest, List.Chain' R r := by
  induction rest with
  | nil =>
    intro cur hch r hr
    simp only [runsFrom, List.mem_singleton] at hr
    subst hr
    simpa using hch
  | cons m rest ih =>
    intro cur hch r hr
    cases hc : cur.getLast? with
    | none =>
      have hnil := getLast?_none_eq_nil hc
      subst hnil
      simp only [runsFrom] at hr
      exact ih [m] (by simpa using hch) r hr
    | some lastM =>
      by_cases hw : ((m.timestamp - lastM.timestamp : Int) : Rat) / 60000 ≤ 30
      · simp only [runsFrom, hc, if_pos hw] at hr
        refine ih (cur ++ [m]) ?_ r hr
        rw [List.append_assoc]
        simpa using hch
      · simp only [runsFrom, hc, if_neg hw] at hr
        rcases List.mem_cons.mp hr with h | h
        · subst h
          exact (List.chain'_append.mp hch).1
        · exact ih [m] (by
            have := (List.chain'_append.mp hch).2.1
            simpa using this) r h

/-- every produced run is internally chained by the 30-minute
condition. -/
lemma runsFrom_chainWithin (rest : List Msg) : ∀ cur, cur ≠ [] →
    List.Chain' (fun a b =>
      ((b.timestamp - a.timestamp : Int) : Rat) / 60000 ≤ 30) cur →
    ∀ r ∈ runsFrom cur rest,
      List.Chain' (fun a b =>
        ((b.timestamp - a.timestamp : Int) : Rat) / 60000 ≤ 30) r := by
  induction rest with
  | nil =>
    intro cur _ hch r hr
    simp only [runsFrom, List.mem_singleton] at hr
    subst hr; exact hch
  | cons m rest ih =>
    intro cur hcur hch r hr
    cases hc : cur.getLast? with
    | none => exact absurd (getLast?_none_eq_nil hc) hcur
    | some lastM =>
      by_cases hw : ((m.timestamp - lastM.timestamp : Int) : Rat) / 60000 ≤ 30
      · simp only [runsFrom, hc, if_pos hw] at hr
        refine ih (cur ++ [m]) (by simp) ?_ r hr
        rw [List.chain'_append]
        refine ⟨hch, by simp, ?_⟩
        intro x hx y hy
        simp only [List.head?_cons, Option.mem_def, Option.some.injEq] at hy
        subst hy
        rw [hc] at hx
        simp only [Option.mem_def, Option.some.injEq] at hx
        subst hx
        exact hw
      · simp only [runsFrom, hc, if_neg hw] at hr
        rcases List.mem_cons.mp hr with h | h
        · subst h; exact hch
        · exact ih [m] (by simp) (by simp) r h

/-- the head message of the first produced run is the head of the open
run. -/
lemma runsFrom_head (rest : List Msg) : ∀ cur, cur ≠ [] →
    ∃ r rs, runsFrom cur rest = r :: rs ∧ r.head? = cur.head? := by
  induction rest with
  | nil =>
    intro cur _
    exact ⟨cur, [], rfl, rfl⟩
  | cons m rest ih =>
    intro cur hcur
    cases hc : cur.getLast? with
    | none => exact absurd (getLast?_none_eq_nil hc) hcur
    | some lastM =>
      by_cases hw : ((m.timestamp - lastM.timestamp : Int) : Rat) / 60000 ≤ 30
      · obtain ⟨r, rs, h1, h2⟩ := ih (cur ++ [m]) (by simp)
        refine ⟨r, rs, ?_, ?_⟩
        · simp only [runsFrom, hc, if_pos hw, h1]
        · rw [h2]
          cases cur with
          | nil => exact absurd rfl hcur
          | cons a t => simp
      · obtain ⟨r, rs, h1, h2⟩ := ih [m] (by simp)
        exact ⟨cur, runsFrom [m] rest,
          by simp only [runsFrom, hc, if_neg hw], rfl⟩

/-- consecutive produced runs are separated by a gap that breaks the
30-minute condition (the emitted runs are maximal). -/
lemma runsFrom_boundary (rest : List Msg) : ∀ cur, cur ≠ [] →
    List.Chain' (fun r s => ∀ x ∈ r.getLast?, ∀ y ∈ s.head?,
      ¬ ((y.timestamp - x.timestamp : Int) : Rat) / 60000 ≤ 30)
      (runsFrom cur rest) := by
  induction rest with
  | nil =>
    intro cur _
    simp [runsFrom]
  | cons m rest ih =>
    intro cur hcur
    cases hc : cur.getLast? with
    | none => exact absurd (getLast?_none_eq_nil hc) hcur
    | some lastM =>
      by_cases hw : ((m.timestamp - lastM.timestamp : Int) : Rat) / 60000 ≤ 30
      · simp only [runsFrom, hc, if_pos hw]
        exact ih (cur ++ [m]) (by simp)
      · simp only [runsFrom, hc, if_neg hw]
        obtain ⟨r, rs, h1, h2⟩ := runsFrom_head rest [m] (by simp)
        rw [h1]
        rw [List.chain'_cons]
        constructor
        · intro x hx y hy
          rw [hc] at hx
          simp only [Option.mem_def, Option.some.injEq] at hx
          subst hx
          rw [h2] at hy
          simp only [List.head?_cons, Option.mem_def, Option.some.injEq] at hy
          subst hy
          exact hw
        · rw [← h1]
          exact ih [m] (by simp)

lemma chain'_conj {α : Type} {R S : α → α → Prop} :
    ∀ {l : List α}, List.Chain' R l → List.Chain' S l →
      List.Chain' (fun a b => R a b ∧ S a b) l := by
  intro l
  induction l with
  | nil => intro _ _; simp
  | cons a t ih =>
    intro h1 h2
    rw [List.chain'_cons'] at h1 h2 ⊢
    exact ⟨fun y hy => ⟨h1.1 y hy, h2.1 y hy⟩, ih h1.2 h2.2⟩

/-- the five-message example of the claim: pairwise 10 minutes apart. -/
def fiveQuick : List Msg :=
  [testMsg 0 "a", testMsg 600000 "b", testMsg 1200000 "a",
   testMsg 1800000 "b", testMsg 2400000 "a"]

/-- the four-message example of the claim. -/
def fourQuick : List Msg :=
  [testMsg 0 "a", testMsg 600000 "b", testMsg 1200000 "a", testMsg 1800000 "b"]

/-- C5.  On a timestamp-sorted message list, `detectMessageBursts`
emits exactly the maximal runs of consecutive messages each within 30
minutes of the previous one that have at least 5 messages, as burst
records whose `messageCount` is the run length and whose `duration` is
the last-minus-first timestamp in minutes: the emitted list is the
size-filtered image of `maximalRuns`, the runs partition the input in
order, each run is nonempty and internally chained by the 30-minute
bound (absolutely, thanks to sortedness), and consecutive runs are
separated by a gap exceeding it.  In particular the concrete
five-message example forms one burst of count 5 and the four-message
example forms none. -/
theorem burst_detection_spec (messages : List Msg)
    (hsorted : List.Chain' (fun a b => a.timestamp ≤ b.timestamp) messages) :
    (detectMessageBursts messages =
      ((maximalRuns messages).filter (fun r => r.length ≥ 5)).map mkBurst) ∧
    (maximalRuns messages).flatten = messages ∧
    (∀ r ∈ maximalRuns messages, r ≠ [] ∧
      List.Chain' (fun a b =>
        |((b.timestamp - a.timestamp : Int) : Rat) / 60000| ≤ 30) r) ∧
    List.Chain' (fun r s => ∀ x ∈ r.getLast?, ∀ y ∈ s.head?,
      ¬ |((y.timestamp - x.timestamp : Int) : Rat) / 60000| ≤ 30)
      (maximalRuns messages) ∧
    detectMessageBursts fiveQuick =
      [{ startTs := 0, endTs := 2400000, messageCount := 5, duration := 40 }] ∧
    detectMessageBursts fourQuick = [] := by
  refine ⟨?_, ?_, ?_, ?_,
    by norm_num [detectMessageBursts, burstsAux, fiveQuick, testMsg, mkBurst,
      List.getLast?_singleton, List.getLast?_cons_cons],
    by norm_num [detectMessageBursts, burstsAux, fourQuick, testMsg, mkBurst,
      List.getLast?_singleton, List.getLast?_cons_cons]⟩
  · cases messages with
    | nil => rfl
    | cons m rest =>
      have h := burstsAux_eq_runsFrom rest [m]
      have hstep : burstsAux [] (m :: rest) = burstsAux [m] rest := by
        simp [burstsAux]
      rw [detectMessageBursts, hstep, h]
      rfl
  · cases messages with
    | nil => rfl
    | cons m rest =>
      rw [maximalRuns, runsFrom_join]
      rfl
  · cases messages with
    | nil => intro r hr; simp [maximalRuns] at hr
    | cons m rest =>
      intro r hr
      rw [maximalRuns] at hr
      refine ⟨runsFrom_ne_nil rest [m] (by simp) r hr, ?_⟩
      have hs : List.Chain' (fun a b : Msg => a.timestamp ≤ b.timestamp) r :=
        runsFrom_chainR rest [m] (by simpa using hsorted) r hr
      have hwn : List.Chain' (fun a b : Msg =>
          ((b.timestamp - a.timestamp : Int) : Rat) / 60000 ≤ 30) r :=
        runsFrom_chainWithin rest [m] (by simp) (by simp) r hr
      refine (chain'_conj hs hwn).imp ?_
      intro a b hab
      rw [abs_of_nonneg]
      · exact hab.2
      · apply div_nonneg _ (by norm_num)
        have hle : (0 : Int) ≤ b.timestamp - a.timestamp := by
          have := hab.1
          omega
        exact_mod_cast hle
  · cases messages with
    | nil => simp [maximalRuns]
    | cons m rest =>
      rw [maximalRuns]
      refine (runsFrom_boundary rest [m] (by simp)).imp ?_
      intro r s h x hx y hy habs
      refine h x hx y hy ?_
      calc ((y.timestamp - x.timestamp : Int) : Rat) / 60000 ≤
          |((y.timestamp - x.timestamp : Int) : Rat) / 60000| := le_abs_self _
        _ ≤ 30 := habs

/-- witness for C5: the theorem applied at the concrete sorted
five-message example. -/
theorem burst_detection_spec_witness :
    detectMessageBursts fiveQuick =
      ((maximalRuns fiveQuick).filter (fun r => r.length ≥ 5)).map mkBurst :=
  (burst_detection_spec fiveQuick (by norm_num [fiveQuick, testMsg])).1

/-! ## C10: calendar-year week keys versus the ISO week-year -/

/-- a message of December 30, 2024 (a Monday): its ISO week number is 1,
belonging to week 1 of 2025, while its calendar year is 2024.  The
parse succeeds (the content is plain text), so the fallback record is
never taken. -/
def decemberMsg : Msg :=
  (parseMessage 0 ⟨"2024-12-30 12:00:00", "alice", "hi"⟩).toOption.getD
    ⟨0, "", "", .text, 0, 0, 0, 0, 0, 0⟩

/-- C10.  Week clusters are keyed by each message's calendar year paired
with its ISO week number (every member of a cluster carries the key
formatted from its own `year` and `week` fields, and the cluster date
range is computed by `getWeekDateRange` from those), and consequently
the late-December message above, with ISO week 1 and calendar year
2024, lands in a cluster whose date range (ISO week 1 of 2024, January
1–7) does not contain its timestamp. -/
theorem week_clusters_keyed_by_calendar_year :
    (∀ msgs : List Msg, ∀ p ∈ clusterByWeeks msgs, ∀ m ∈ p.2.messages,
      p.1 = toString m.year ++ "-W" ++ padStart2 (toString m.week) ∧
      p.2.dateRange = some (getWeekDateRange p.2.year p.2.week)) ∧
    (decemberMsg.week = 1 ∧ decemberMsg.year = 2024 ∧
     clusterByWeeks [decemberMsg] ≠ [] ∧
     ∀ p ∈ clusterByWeeks [decemberMsg], ∀ dr ∈ p.2.dateRange,
       ¬(dr.rangeStart ≤ decemberMsg.timestamp ∧
         decemberMsg.timestamp ≤ dr.rangeEnd)) := by
  constructor
  · intro msgs p hp m hm
    obtain ⟨_, _, _, hmem, hdr⟩ := clusterByWeeks_facts msgs p hp
    exact ⟨hmem m hm, hdr⟩
  · exact ⟨by decide, by decide, by decide, by decide⟩

/-- witness for C10: the first conjunct applied at the concrete
single-message cluster of the December message. -/
theorem week_clusters_keyed_witness :
    "2024-W01" = toString decemberMsg.year ++ "-W" ++
      padStart2 (toString decemberMsg.week) :=
  (week_clusters_keyed_by_calendar_year.1 [decemberMsg]
    ("2024-W01", ⟨2024, 1, [decemberMsg], 1, some (getWeekDateRange 2024 1)⟩)
    (by decide) decemberMsg (by decide)).1

/-! ## C8: engine behaviour on the empty message list -/

/-- C8 evaluation.  The `Processor` analytics functions return their
neutral zero-valued records on the empty message list, but
`StatsIndividual.getDetailedContentBreakdown` yields `NaN` percentages
(modelled `none`) rather than zeros, and
`StatsIndividual.calculateMilestones` throws a `TypeError` (modelled
`none`) by reading the first message unconditionally in its anniversary
block — contradicting the claim that every engine function returns a
neutral zero-valued result rather than raising. -/
theorem engine_empty_list_results (uid : Option String) (now : Int) :
    calculateResponseTimes uid [] = ⟨0, 0, 0, 0⟩ ∧
    calculateInitiatorScore uid [] = ⟨0, 0, 0, 0⟩ ∧
    detectMessageBursts [] = [] ∧
    calculateGapsAndStreaks now [] = ⟨0, 0, 0, []⟩ ∧
    calculateBalanceScore uid [] = ⟨0, 0, 0, 0, 0⟩ ∧
    getDetailedContentBreakdown [] =
      ⟨⟨0, 0, 0, 0, 0⟩, none, none, none, none, none⟩ ∧
    calculateMilestones [] = none :=
  ⟨rfl, rfl, rfl, rfl, rfl, rfl, rfl⟩

/-! ## C7: a failed pipeline run leaves the session state unchanged -/

/-- C7.  Whenever `processData` ends in an error, the session state
after the run equals the state before it: the only fallible stages
(JSON parsing/validation and conversation extraction) run before the
first assignment to the session, and the later stages (clustering,
grouping, statistics) are total. -/
theorem pipeline_failure_preserves_state (tz now : Int) (s : SessionState)
    (e : String) (h : (processDataRun tz now s).2 = .error e) :
    (processDataRun tz now s).1 = s := by
  rcases hid : s.userIdentity with _ | u
  · simp [processDataRun, hid] at h
  · by_cases hu : u = ""
    · simp [processDataRun, hid, hu] at h
    · cases hp : parseJSON s.rawData with
      | error e' => simp [processDataRun, hid, hu, hp]
      | ok data =>
        cases hx : extractConversations tz data with
        | error e' => simp [processDataRun, hid, hu, hp, hx]
        | ok convs => simp [processDataRun, hid, hu, hp, hx] at h

/-- an upload whose JSON lacks the `ChatHistory` key: ingestion fails
with the schema error, as in the specification scenario. -/
def badUpload : SessionState :=
  ⟨some (.jobj [("Direct Message", .jobj [("Direct Messages", .jobj [])])]),
    some "me", none, none, none, none⟩

/-- witness for C7: the failing upload leaves the state unchanged. -/
theorem pipeline_failure_witness :
    (processDataRun 0 0 badUpload).1 = badUpload :=
  pipeline_failure_preserves_state 0 0 badUpload
    "Failed to parse JSON: Invalid JSON structure" (by rfl)

/-! ## C6: which elements ingestion drops -/

/-- an element of a conversation array in the well-formed fragment: the
three fields, each absent or a string. -/
abbrev RawElem : Type := Option String × Option String × Option String

/-- the JSON object encoding of a well-formed element. -/
def recJ (e : RawElem) : JVal :=
  .jobj ((match e.1 with | some s => [("Date", JVal.jstr s)] | none => []) ++
         (match e.2.1 with | some s => [("From", JVal.jstr s)] | none => []) ++
         (match e.2.2 with | some s => [("Content", JVal.jstr s)] | none => []))

/-- the three-level upload structure around a chat history of
well-formed elements. -/
def mkUpload (convs : List (String × List RawElem)) : JVal :=
  .jobj [("Direct Message", .jobj [("Direct Messages", .jobj [("ChatHistory",
    .jobj (convs.map (fun p => (p.1, JVal.jarr (p.2.map recJ)))))])])]

/-- the claim-side keep test: non-empty-string `Date`, non-empty
`From`, defined (possibly empty-string) `Content`. -/
def keepElement (e : RawElem) : Bool :=
  (match e.1 with | some s => s ≠ "" | none => false) &&
  (match e.2.1 with | some s => s ≠ "" | none => false) &&
  e.2.2.isSome

/-- the parse of a kept element; an exception from `processContent` on
its `Content` propagates. -/
def parseElem (tz : Int) (e : RawElem) : Except String Msg :=
  parseMessage tz ⟨e.1.getD "", e.2.1.getD "", e.2.2.getD ""⟩

/-- the element loop of ingestion over well-formed elements: drop the
elements failing the keep test, parse the rest, propagate the first
parse exception. -/
def extractElems (tz : Int) : List RawElem → Except String (List Msg)
  | [] => .ok []
  | e :: rest =>
    if keepElement e then
      match parseElem tz e with
      | .error er => .error er
      | .ok m =>
        match extractElems tz rest with
        | .error er => .error er
        | .ok r => .ok (m :: r)
    else extractElems tz rest

/-- the conversation loop of ingestion over well-formed elements,
omitting conversations with no kept element. -/
def extractConvElems (tz : Int) :
    List (String × List RawElem) → Except String (List (String × List Msg))
  | [] => .ok []
  | p :: rest =>
    match extractElems tz p.2 with
    | .error er => .error er
    | .ok ms =>
      match extractConvElems tz rest with
      | .error er => .error er
      | .ok r => .ok (if ms ≠ [] then (personName p.1, ms) :: r else r)

lemma extractMsgs_recJ (tz : Int) (ms : List RawElem) :
    extractMsgs tz (ms.map recJ) = extractElems tz ms := by
  induction ms with
  | nil => rfl
  | cons e rest ih =>
    obtain ⟨d, f, c⟩ := e
    rcases d with _ | sd <;> rcases f with _ | sf <;> rcases c with _ | sc <;>
      first
      | (simp [extractMsgs, recJ, validateMessage, jGet, List.lookup, jTruthy,
          keepElement, extractElems, ih, parseMessageJVal, parseElem]
         done)
      | (by_cases hd : sd = "" <;> by_cases hf : sf = "" <;>
          simp [extractMsgs, recJ, validateMessage, jGet, List.lookup, jTruthy,
            keepElement, extractElems, ih, hd, hf, parseMessageJVal,
            parseElem])

lemma extractConvsAux_mkUpload (tz : Int)
    (convs : List (String × List RawElem)) :
    extractConvsAux tz (convs.map (fun p => (p.1, JVal.jarr (p.2.map recJ)))) =
      extractConvElems tz convs := by
  induction convs with
  | nil => rfl
  | cons p rest ih =>
    obtain ⟨k, ms⟩ := p
    simp only [List.map_cons, extractConvsAux, extractMsgs_recJ tz ms, ih,
      extractConvElems]

lemma extractElems_ok (tz : Int) (ms : List RawElem)
    (h : ∀ e ∈ ms.filter keepElement, (parseElem tz e).isOk) :
    extractElems tz ms =
      .ok ((ms.filter keepElement).filterMap
        (fun e => (parseElem tz e).toOption)) := by
  induction ms with
  | nil => rfl
  | cons e rest ih =>
    by_cases hk : keepElement e
    · have he : (parseElem tz e).isOk := h e (by simp [List.filter_cons, hk])
      cases hpe : parseElem tz e with
      | error er =>
        rw [hpe] at he
        exact absurd he (by simp [Except.isOk, Except.toBool])
      | ok m =>
        have ih2 := ih (fun x hx => h x (by simp [List.filter_cons, hk, hx]))
        simp [extractElems, hk, hpe, ih2, List.filter_cons, Except.toOption]
    · have ih2 := ih (fun x hx => h x (by simp [List.filter_cons, hk, hx]))
      simp [extractElems, hk, List.filter_cons, ih2]

lemma filterMap_parse_nil_iff (tz : Int) (l : List RawElem)
    (h : ∀ e ∈ l, (parseElem tz e).isOk) :
    l.filterMap (fun e => (parseElem tz e).toOption) = [] ↔ l = [] := by
  cases l with
  | nil => simp
  | cons e rest =>
    have he := h e (by simp)
    cases hpe : parseElem tz e with
    | error er =>
      rw [hpe] at he
      exact absurd he (by simp [Except.isOk, Except.toBool])
    | ok m => simp [List.filterMap_cons, hpe, Except.toOption]

lemma extractConvElems_ok (tz : Int) (convs : List (String × List RawElem))
    (h : ∀ p ∈ convs, ∀ e ∈ p.2.filter keepElement, (parseElem tz e).isOk) :
    extractConvElems tz convs =
      .ok (convs.filterMap (fun p =>
        let kept := p.2.filter keepElement
        if kept = [] then none
        else some (personName p.1,
          kept.filterMap (fun e => (parseElem tz e).toOption)))) := by
  induction convs with
  | nil => rfl
  | cons p rest ih =>
    have hp := h p (by simp)
    have ih2 := ih (fun q hq => h q (by simp [hq]))
    rw [extractConvElems, extractElems_ok tz p.2 hp, ih2]
    by_cases hk : p.2.filter keepElement = []
    · simp [hk, List.filterMap_cons]
    · have hne : (p.2.filter keepElement).filterMap
          (fun e => (parseElem tz e).toOption) ≠ [] := by
        rw [Ne, filterMap_parse_nil_iff tz _ hp]
        exact hk
      simp [hk, hne, List.filterMap_cons]

/-- C6 as amended.  On uploads whose conversation elements are objects
with string-or-absent `Date`, `From` and `Content` fields — and whose
kept elements all normalize without an exception, the hypothesis the
counterexample shows cannot be dropped — ingestion succeeds and keeps
exactly the elements with a non-empty-string `Date`, a non-empty `From`
and a defined (possibly empty) `Content`, dropping the rest silently;
conversations with zero kept elements are omitted, so the output has no
empty conversation. -/
theorem ingestion_drop_semantics (tz : Int)
    (convs : List (String × List RawElem))
    (h : ∀ p ∈ convs, ∀ e ∈ p.2.filter keepElement, (parseElem tz e).isOk) :
    extractConversations tz (mkUpload convs) =
      .ok (convs.filterMap (fun p =>
        let kept := p.2.filter keepElement
        if kept = [] then none
        else some (personName p.1,
          kept.filterMap (fun e => (parseElem tz e).toOption)))) ∧
    ∀ q ∈ convs.filterMap (fun p =>
        let kept := p.2.filter keepElement
        if kept = [] then none
        else some (personName p.1,
          kept.filterMap (fun e => (parseElem tz e).toOption))), q.2 ≠ [] := by
  constructor
  · have h1 : extractConversations tz (mkUpload convs) =
        extractConvElems tz convs := by
      simp only [extractConversations, mkUpload, jGet, List.lookup]
      simpa using extractConvsAux_mkUpload tz convs
    rw [h1, extractConvElems_ok tz convs h]
  · intro q hq
    simp only [List.mem_filterMap] at hq
    obtain ⟨p, hpmem, hp⟩ := hq
    by_cases hk : p.2.filter keepElement = []
    · simp [hk] at hp
    · simp only [hk, if_false] at hp
      have hq2 := Option.some.inj hp
      rw [← hq2]
      simp only [ne_eq]
      intro hnil
      exact hk ((filterMap_parse_nil_iff tz _ (h p hpmem)).mp hnil)

/-- counterexample to C6 as stated: ingestion is not unconditionally
"drop, not fatal".  On inputs that pass the schema validation, a `null`
element, or a truthy non-string `Date`, aborts extraction with a
`TypeError` instead of being silently dropped; and even an element with
all three string fields aborts extraction when normalizing its
`Content` throws — `new URL` raises `TypeError` on the bare-URL match
`https://#x` (empty host), and `decodeURIComponent` raises `URIError`
on the sticker match `[https://x/a%.gif]` (malformed escape). -/
theorem ingestion_fatal_elements :
    validateStructure (.jobj [("Direct Message", .jobj [("Direct Messages",
      .jobj [("ChatHistory", .jobj [("Chat History with a:",
        .jarr [.jnull])])])])]) = true ∧
    extractConversations 0 (.jobj [("Direct Message", .jobj [("Direct Messages",
      .jobj [("ChatHistory", .jobj [("Chat History with a:",
        .jarr [.jnull])])])])]) = .error "TypeError" ∧
    validateStructure (.jobj [("Direct Message", .jobj [("Direct Messages",
      .jobj [("ChatHistory", .jobj [("Chat History with a:",
        .jarr [.jobj [("Date", .jnum 5), ("From", .jstr "a"),
          ("Content", .jstr "x")]])])])])]) = true ∧
    extractConversations 0 (.jobj [("Direct Message", .jobj [("Direct Messages",
      .jobj [("ChatHistory", .jobj [("Chat History with a:",
        .jarr [.jobj [("Date", .jnum 5), ("From", .jstr "a"),
          ("Content", .jstr "x")]])])])])]) = .error "TypeError" ∧
    extractConversations 0 (mkUpload [("Chat History with a:",
      [(some "2024-01-01 10:00:00", some "a", some "https://#x")])]) =
      .error "TypeError" ∧
    extractConversations 0 (mkUpload [("Chat History with a:",
      [(some "2024-01-01 10:00:00", some "a", some "[https://x/a%.gif]")])]) =
      .error "URIError" := by
  refine ⟨rfl, rfl, ?_, rfl, rfl, rfl⟩
  simp [validateStructure, jGet, jTruthy, jKeys, strStarts, strEnds, endsWithL]

/-- a small well-formed upload: one kept element, one element dropped
for its missing `Date`. -/
def sampleConvs : List (String × List RawElem) :=
  [("Chat History with bob:",
    [(some "2024-01-01 10:00:00", some "bob", some "hi"),
     (none, some "bob", some "dropped")])]

/-- witness for C6 (amended) at the concrete sample upload. -/
theorem ingestion_drop_semantics_witness :
    extractConversations 0 (mkUpload sampleConvs) =
      .ok (sampleConvs.filterMap (fun p =>
        let kept := p.2.filter keepElement
        if kept = [] then none
        else some (personName p.1,
          kept.filterMap (fun e => (parseElem 0 e).toOption)))) ∧
    ("bob", ([((some "2024-01-01 10:00:00" : Option String),
        (some "bob" : Option String), (some "hi" : Option String))] :
        List RawElem).filterMap (fun e => (parseElem 0 e).toOption)).2 ≠ [] :=
  ⟨(ingestion_drop_semantics 0 sampleConvs (by decide)).1,
   (ingestion_drop_semantics 0 sampleConvs (by decide)).2 _ (by decide)⟩

/-! ## C9: one export file per selected week -/

lemma zipFile_append (zip : List (String × String)) (name content : String)
    (h : ∀ f ∈ zip, f.1 ≠ name) :
    zipFile zip name content = zip ++ [(name, content)] := by
  induction zip with
  | nil => rfl
  | cons f rest ih =>
    obtain ⟨n, c⟩ := f
    have hn : n ≠ name := h (n, c) (List.mem_cons_self _ _)
    simp only [zipFile, if_neg hn, List.cons_append]
    rw [ih]
    intro g hg
    exact h g (List.mem_cons_of_mem _ hg)

lemma string_append_cancel {p s a b : String} (h : p ++ a ++ s = p ++ b ++ s) :
    a = b := by
  have hd : p.data ++ a.data ++ s.data = p.data ++ b.data ++ s.data := by
    have := congrArg String.data h
    simpa [String.data_append] using this
  rw [List.append_assoc, List.append_assoc] at hd
  have h1 := List.append_cancel_left hd
  have h2 := List.append_cancel_right h1
  cases a; cases b
  exact congrArg String.mk (by simpa using h2)

/-- the export filename of a week key. -/
def exportName (p wk : String) : String := p ++ "_" ++ wk ++ ".md"

lemma exportName_inj (p : String) {w1 w2 : String}
    (h : exportName p w1 = exportName p w2) : w1 = w2 := by
  have h' : (p ++ "_") ++ w1 ++ ".md" = (p ++ "_") ++ w2 ++ ".md" := by
    simpa [exportName, String.append_assoc] using h
  exact string_append_cancel h'

lemma exportToZip_go (exportDate p : String) (wc : List (String × WeekCluster)) :
    ∀ (sel : List String) (acc : List (String × String)), sel.Nodup →
    (∀ wk ∈ sel, ∀ f ∈ acc, f.1 ≠ exportName p wk) →
    sel.foldl (fun zip wk =>
      match wc.lookup wk with
      | none => zip
      | some w =>
        zipFile zip (p ++ "_" ++ wk ++ ".md")
          (generateWeekMarkdown exportDate p w)) acc =
      acc ++ sel.filterMap (fun wk =>
        (wc.lookup wk).map (fun w =>
          (p ++ "_" ++ wk ++ ".md", generateWeekMarkdown exportDate p w))) := by
  intro sel
  induction sel with
  | nil => intro acc _ _; simp
  | cons wk rest ih =>
    intro acc hnd hdisj
    simp only [List.foldl_cons, List.filterMap_cons]
    cases hl : wc.lookup wk with
    | none =>
      rw [ih acc (List.nodup_cons.mp hnd).2
        (fun w hw f hf => hdisj w (List.mem_cons_of_mem _ hw) f hf)]
      simp
    | some w =>
      dsimp only
      rw [zipFile_append acc (p ++ "_" ++ wk ++ ".md")
        (generateWeekMarkdown exportDate p w)
        (fun f hf => hdisj wk (List.mem_cons_self _ _) f hf)]
      rw [ih (acc ++ [(p ++ "_" ++ wk ++ ".md", generateWeekMarkdown exportDate p w)])
        (List.nodup_cons.mp hnd).2 ?_]
      · simp
      · intro w' hw' f hf
        rcases List.mem_append.mp hf with hf | hf
        · exact hdisj w' (List.mem_cons_of_mem _ hw') f hf
        · simp only [List.mem_singleton] at hf
          subst hf
          intro hcontra
          have : wk = w' := exportName_inj p hcontra
          exact (List.nodup_cons.mp hnd).1 (this ▸ hw')

/-- C9.  For a duplicate-free selection (selections come from a `Set` in
the caller), the export archive holds exactly one file per selected
week key that resolves in the week clusters, in selection order, named
`<partnerName>_<weekKey>.md` with the Markdown report of that week as
content; unselected weeks contribute no file and the empty selection
yields an empty archive.  Week keys of clusters built by
`clusterByWeeks` have the `${year}-W${2-digit week}` format, giving the
claimed `<partnerName>_<year>-W<week>` naming. -/
theorem export_one_file_per_selected_week (exportDate p : String)
    (wc : List (String × WeekCluster)) (sel : List String) (hnd : sel.Nodup) :
    exportToZip exportDate p wc sel = exportFilesClaim exportDate p wc sel ∧
    (sel = [] → exportToZip exportDate p wc sel = []) ∧
    (∀ msgs : List Msg, ∀ q ∈ clusterByWeeks msgs,
      q.1 = toString q.2.year ++ "-W" ++ padStart2 (toString q.2.week)) := by
  refine ⟨?_, ?_, ?_⟩
  · have h := exportToZip_go exportDate p wc sel [] hnd (by simp)
    simpa [exportToZip, exportFilesClaim] using h
  · intro hsel
    subst hsel
    rfl
  · intro msgs q hq
    exact (clusterByWeeks_facts msgs q hq).2.2.1

/-- witness for C9 at a concrete cluster list and selection. -/
theorem export_week_selection_witness :
    exportToZip "1/1/2025" "bob" (clusterByWeeks [decemberMsg]) ["2024-W01"] =
      exportFilesClaim "1/1/2025" "bob" (clusterByWeeks [decemberMsg])
        ["2024-W01"] :=
  (export_one_file_per_selected_week "1/1/2025" "bob"
    (clusterByWeeks [decemberMsg]) ["2024-W01"] (by decide)).1

/-! ## C2 and C3: content classification -/

lemma trimL_eq_nil_iff (l : List Char) :
    trimL l = [] ↔ ∀ c ∈ l, jsWs c = true := by
  unfold trimL
  rw [List.reverse_eq_nil_iff, List.dropWhile_eq_nil_iff]
  constructor
  · intro h c hc
    have hl := (List.takeWhile_append_dropWhile (p := jsWs) (l := l)).symm
    rw [hl] at hc
    rcases List.mem_append.mp hc with h1 | h1
    · exact List.mem_takeWhile_imp h1
    · exact h c (List.mem_reverse.mpr h1)
  · intro h c hc
    refine h c ?_
    have := List.mem_reverse.mp hc
    have hl := (List.takeWhile_append_dropWhile (p := jsWs) (l := l)).symm
    rw [hl]
    exact List.mem_append.mpr (Or.inr this)

lemma trimL_ne_nil_of_mem {l : List Char} {c : Char} (hc : c ∈ l)
    (hws : jsWs c = false) : trimL l ≠ [] := by
  intro h
  have := (trimL_eq_nil_iff l).mp h c hc
  rw [hws] at this
  exact Bool.noConfusion this

lemma findFirst_decomp {β : Type} {f : List Char → Option (Nat × β)} :
    ∀ {cs : List Char} {pre suf : List Char} {len : Nat} {b : β},
      findFirst f cs = some (pre, suf, len, b) →
      cs = pre ++ suf ∧ f suf = some (len, b) := by
  intro cs
  induction cs with
  | nil => intro pre suf len b h; exact absurd h (by simp [findFirst])
  | cons c t ih =>
    intro pre suf len b h
    rw [findFirst] at h
    cases hf : f (c :: t) with
    | some r =>
      rw [hf] at h
      obtain ⟨len0, b0⟩ := r
      simp only [Option.some.injEq, Prod.mk.injEq] at h
      obtain ⟨h1, h2, h3, h4⟩ := h
      subst h1; subst h2; subst h3; subst h4
      exact ⟨rfl, hf⟩
    | none =>
      rw [hf] at h
      obtain ⟨⟨pre', suf', len', b'⟩, hr, hmap⟩ := Option.map_eq_some'.mp h
      simp only [Prod.mk.injEq] at hmap
      obtain ⟨h1, h2, h3, h4⟩ := hmap
      subst h1; subst h2; subst h3; subst h4
      obtain ⟨ht, hf'⟩ := ih hr
      exact ⟨by rw [ht]; rfl, hf'⟩

lemma stickerMatchAt_head {cs : List Char} {r : Nat × List Char}
    (h : stickerMatchAt cs = some r) : ∃ t, cs = '[' :: t := by
  cases cs with
  | nil => exact absurd h (by simp [stickerMatchAt])
  | cons c t =>
    by_cases hc : c = '['
    · exact ⟨t, by rw [hc]⟩
    · exact absurd h (by simp [stickerMatchAt, hc])

lemma lowA_h_not_ws {c : Char} (h : lowA c = 'h') : jsWs c = false := by
  by_contra hws
  simp only [Bool.not_eq_false] at hws
  have hmem : c = ' ' ∨ c = '\t' ∨ c = '\n' ∨ c = '\r' ∨ c = '\x0b' ∨ c = '\x0c' := by
    have := hws
    simp only [jsWs, Bool.or_eq_true, decide_eq_true_eq] at this
    tauto
  rcases hmem with rfl | rfl | rfl | rfl | rfl | rfl <;>
    exact absurd h (by decide)

lemma takeLit_cons_head {c0 : Char} {lit' cs rest : List Char}
    (h : takeLit (c0 :: lit') cs = some rest) :
    ∃ c t, cs = c :: t ∧ lowA c = c0 := by
  unfold takeLit at h
  by_cases hc : (cs.take (c0 :: lit').length).map lowA = c0 :: lit'
  · cases cs with
    | nil => simp at hc
    | cons c t =>
      refine ⟨c, t, rfl, ?_⟩
      simp only [List.length_cons, List.take_succ_cons, List.map_cons,
        List.cons.injEq] at hc
      exact hc.1
  · rw [if_neg hc] at h
    exact absurd h (by simp)

lemma tiktokMatchAt_nonws {cs : List Char} {n : Nat}
    (h : tiktokMatchAt cs = some n) :
    ∃ c t, cs = c :: t ∧ jsWs c = false := by
  cases hs1 : takeLit "https://".data cs with
  | some s =>
    obtain ⟨c, t, hct, hl⟩ := takeLit_cons_head hs1
    exact ⟨c, t, hct, lowA_h_not_ws hl⟩
  | none =>
    cases hs2 : takeLit "http://".data cs with
    | some s =>
      obtain ⟨c, t, hct, hl⟩ := takeLit_cons_head hs2
      exact ⟨c, t, hct, lowA_h_not_ws hl⟩
    | none =>
      exfalso
      unfold tiktokMatchAt at h
      rw [hs1, hs2] at h
      exact absurd h (by simp)

lemma stickerReplaceAll_no_match {cs : List Char}
    (h : findFirst stickerM cs = none) : stickerReplaceAll cs = .ok cs := by
  unfold stickerReplaceAll
  cases cs with
  | nil => rfl
  | cons c t => simp [stickerReplAux, h]

lemma tiktokReplaceAll_no_match {cs : List Char}
    (h : findFirst tiktokM cs = none) : tiktokReplaceAll cs = cs := by
  unfold tiktokReplaceAll
  cases cs with
  | nil => rfl
  | cons c t => simp [tiktokReplAux, h]

lemma stickerReplaceAll_ok_bracket {cs out : List Char}
    {r : List Char × List Char × Nat × List Char}
    (h : findFirst stickerM cs = some r)
    (hok : stickerReplaceAll cs = .ok out) : '[' ∈ out := by
  cases cs with
  | nil => exact absurd h (by simp [findFirst])
  | cons c t =>
    obtain ⟨pre, suf, len, p1⟩ := r
    have hb : '[' ∈ "[Sticker: ".data := by decide
    unfold stickerReplaceAll at hok
    simp only [List.length_cons, stickerReplAux, h] at hok
    cases hd : percentDecode p1 with
    | none => rw [hd] at hok; exact absurd hok (by simp)
    | some dec =>
      rw [hd] at hok
      cases htail : stickerReplAux t.length (suf.drop len) with
      | error e => rw [htail] at hok; exact absurd hok (by simp)
      | ok tail =>
        rw [htail] at hok
        simp only [Except.ok.injEq] at hok
        subst hok
        simp [List.mem_append, hb]

lemma tiktokReplaceAll_bracket {cs : List Char}
    {r : List Char × List Char × Nat × Unit}
    (h : findFirst tiktokM cs = some r) : '[' ∈ tiktokReplaceAll cs := by
  cases cs with
  | nil => exact absurd h (by simp [findFirst])
  | cons c t =>
    obtain ⟨pre, suf, len, u⟩ := r
    have hb : '[' ∈ "[Media: TikTok Video]".data := by decide
    unfold tiktokReplaceAll
    simp only [List.length_cons, tiktokReplAux, h]
    simp [List.mem_append, hb]

lemma tiktokReplaceAll_mem_bracket {cs : List Char} (h : '[' ∈ cs) :
    '[' ∈ tiktokReplaceAll cs := by
  cases ht : findFirst tiktokM cs with
  | none => rw [tiktokReplaceAll_no_match ht]; exact h
  | some r => exact tiktokReplaceAll_bracket ht

/-- a sticker match means the raw content holds a bracket. -/
lemma raw_bracket_of_sticker {cs : List Char}
    {r : List Char × List Char × Nat × List Char}
    (h : findFirst stickerM cs = some r) : '[' ∈ cs := by
  obtain ⟨pre, suf, len, p1⟩ := r
  obtain ⟨hsplit, hm⟩ := findFirst_decomp h
  obtain ⟨t, hsuf⟩ := stickerMatchAt_head hm
  rw [hsplit, hsuf]
  simp

/-- a TikTok match means the raw content holds a non-whitespace
character. -/
lemma raw_nonws_of_tiktok {cs : List Char}
    {r : List Char × List Char × Nat × Unit}
    (h : findFirst tiktokM cs = some r) :
    ∃ c ∈ cs, jsWs c = false := by
  obtain ⟨pre, suf, len, u⟩ := r
  obtain ⟨hsplit, hm⟩ := findFirst_decomp h
  obtain ⟨n, hn, _⟩ := Option.map_eq_some'.mp hm
  obtain ⟨c, t, hsuf, hws⟩ := tiktokMatchAt_nonws hn
  refine ⟨c, ?_, hws⟩
  rw [hsplit, hsuf]
  simp

/-- counterexample to C2 as stated: classification does not always
yield the stated sticker/link result — the sticker branch throws
`URIError` on a malformed percent-escape in the decoded segment, and
the link branch throws `TypeError` when `new URL` rejects the first
bare-URL match (here: an empty host). -/
theorem process_content_throws :
    processContent "[https://x/a%.gif]" = .error "URIError" ∧
    processContent "https://#x" = .error "TypeError" ∧
    processContent "https://example.com/page" =
      .ok ("[Link: example.com/page]", .link) :=
  ⟨rfl, rfl, rfl⟩

/-- C2 as amended.  On content whose bare-URL matches keep their hosts
inside the modelled `new URL` fragment, `processContent` equals the
specification-shaped classifier: empty/whitespace-only first, then
sticker (the rewrite propagating the decode `URIError`), then TikTok
media, then bare URLs (media with the content unchanged when some URL
carries a media extension, otherwise a link rebuilt from the first URL
only — propagating the `TypeError` of `new URL` — with the rest of the
text discarded), otherwise text with the content unchanged. -/
theorem process_content_precedence (content : String)
    (_hscope : ∀ l ∈ allLinks content.data, hostInScope l = true) :
    processContent content = processContentClaim content := by
  simp only [processContent, processContentClaim]
  cases hs : findFirst stickerM content.data with
  | some r =>
    have h3 : trimL content.data ≠ [] :=
      trimL_ne_nil_of_mem (raw_bracket_of_sticker hs) (by decide)
    cases hsr : stickerReplaceAll content.data with
    | error e => simp [hs, hsr, h3]
    | ok c1 =>
      have h2 : trimL (tiktokReplaceAll c1) ≠ [] :=
        trimL_ne_nil_of_mem
          (tiktokReplaceAll_mem_bracket (stickerReplaceAll_ok_bracket hs hsr))
          (by decide)
      simp [hs, hsr, h2, h3]
  | none =>
    have hok : stickerReplaceAll content.data = .ok content.data :=
      stickerReplaceAll_no_match hs
    cases ht : findFirst tiktokM content.data with
    | some r =>
      have h2 : trimL (tiktokReplaceAll content.data) ≠ [] :=
        trimL_ne_nil_of_mem (tiktokReplaceAll_bracket ht) (by decide)
      obtain ⟨c, hc, hws⟩ := raw_nonws_of_tiktok ht
      have h3 : trimL content.data ≠ [] := trimL_ne_nil_of_mem hc hws
      simp [hs, ht, hok, h2, h3]
    | none =>
      simp [hs, ht, hok, tiktokReplaceAll_no_match ht]

/-- witness for C2 (amended) at concrete link, sticker and text
contents whose hosts lie in the modelled fragment. -/
theorem process_content_precedence_witness :
    processContent "https://example.com/page" =
      processContentClaim "https://example.com/page" ∧
    processContent "see https://a.example/x.jpg" =
      processContentClaim "see https://a.example/x.jpg" ∧
    processContent "hello" = processContentClaim "hello" :=
  ⟨process_content_precedence "https://example.com/page" (by decide),
   process_content_precedence "see https://a.example/x.jpg" (by decide),
   process_content_precedence "hello" (by decide)⟩

/-- counterexample to C3 as stated: the rewritten link placeholder of
the claim re-classifies as `text`, so the type is not stable under
re-normalization (the content happens to survive unchanged here, but
the classification changes from `link` to `text`). -/
theorem renormalization_changes_type :
    processContent "https://example.com/page" =
      .ok ("[Link: example.com/page]", .link) ∧
    processContent "[Link: example.com/page]" =
      .ok ("[Link: example.com/page]", .text) ∧
    (processContent "[Link: example.com/page]").toOption.map Prod.snd ≠
      (processContent "https://example.com/page").toOption.map Prod.snd :=
  ⟨rfl, rfl, by decide⟩

/-- C3 as amended.  Re-normalization is a fixed point exactly on the
outputs whose content the first pass left unchanged: a `text` result
always has unchanged content and hence re-processes identically, an
`empty` result re-processes identically, and any result whose content
equals its input re-processes identically; for rewritten placeholder
outputs (`sticker`, TikTok `media`, `link`) the type re-classifies
(for example `[Link: host/path]` becomes `text`), as the
counterexample shows. -/
theorem renormalization_partial_idempotent (c : String) :
    (∀ r, processContent c = .ok r → r.2 = .text → r.1 = c) ∧
    (∀ r, processContent c = .ok r → r.2 = .empty →
      processContent r.1 = processContent c) ∧
    (∀ r, processContent c = .ok r → r.1 = c →
      processContent r.1 = processContent c) := by
  refine ⟨?_, ?_, fun r _ h => by rw [h]⟩
  · intro r hr htext
    cases hs : findFirst stickerM c.data with
    | some r2 =>
      have h3 : trimL c.data ≠ [] :=
        trimL_ne_nil_of_mem (raw_bracket_of_sticker hs) (by decide)
      cases hsr : stickerReplaceAll c.data with
      | error e => simp [processContent, hsr] at hr
      | ok c1 =>
        simp only [processContent, hsr] at hr
        have h2 : trimL (tiktokReplaceAll c1) ≠ [] :=
          trimL_ne_nil_of_mem
            (tiktokReplaceAll_mem_bracket (stickerReplaceAll_ok_bracket hs hsr))
            (by decide)
        simp only [h2, if_false, hs, Option.isSome_some, if_true] at hr
        obtain rfl := Except.ok.inj hr
        simp at htext
    | none =>
      have hok : stickerReplaceAll c.data = .ok c.data :=
        stickerReplaceAll_no_match hs
      simp only [processContent, hok] at hr
      cases ht : findFirst tiktokM c.data with
      | some r2 =>
        have h2 : trimL (tiktokReplaceAll c.data) ≠ [] :=
          trimL_ne_nil_of_mem (tiktokReplaceAll_bracket ht) (by decide)
        simp only [h2, if_false, hs, ht] at hr
        simp only [Option.isSome_none, Bool.false_eq_true, if_false,
          Option.isSome_some, if_true] at hr
        obtain rfl := Except.ok.inj hr
        simp at htext
      | none =>
        rw [tiktokReplaceAll_no_match ht] at hr
        by_cases h0 : trimL c.data = []
        · simp only [h0, if_true] at hr
          obtain rfl := Except.ok.inj hr
          simp at htext
        · simp only [h0, if_false, hs, ht, Option.isSome_none,
            Bool.false_eq_true] at hr
          cases hal : allLinks c.data with
          | nil =>
            rw [hal] at hr
            obtain rfl := Except.ok.inj hr
            rfl
          | cons l ls =>
            rw [hal] at hr
            by_cases hm : (l :: ls).any hasMediaExt
            · simp only [hm, if_true] at hr
              obtain rfl := Except.ok.inj hr
              simp at htext
            · simp only [hm, Bool.false_eq_true, if_false] at hr
              cases hu : urlHostPath l with
              | none => rw [hu] at hr; exact absurd hr (by simp)
              | some hp =>
                rw [hu] at hr
                obtain rfl := Except.ok.inj hr
                simp at htext
  · intro r hr hempty
    cases hsr : stickerReplaceAll c.data with
    | error e => simp [processContent, hsr] at hr
    | ok c1 =>
      simp only [processContent, hsr] at hr
      by_cases h0 : trimL (tiktokReplaceAll c1) = []
      · simp only [h0, if_true] at hr
        obtain rfl := Except.ok.inj hr
        have h1 : processContent "" = .ok ("", .empty) := rfl
        rw [h1]
        simp only [processContent, hsr, h0, if_true]
      · exfalso
        simp only [h0, if_false] at hr
        cases hs : findFirst stickerM c.data with
        | some r2 =>
          simp only [hs, Option.isSome_some, if_true] at hr
          obtain rfl := Except.ok.inj hr
          simp at hempty
        | none =>
          simp only [hs, Option.isSome_none, Bool.false_eq_true, if_false] at hr
          cases ht : findFirst tiktokM c.data with
          | some r2 =>
            simp only [ht, Option.isSome_some, if_true] at hr
            obtain rfl := Except.ok.inj hr
            simp at hempty
          | none =>
            simp only [ht, Option.isSome_none, Bool.false_eq_true,
              if_false] at hr
            cases hal : allLinks c.data with
            | nil =>
              rw [hal] at hr
              obtain rfl := Except.ok.inj hr
              simp at hempty
            | cons l ls =>
              rw [hal] at hr
              by_cases hm : (l :: ls).any hasMediaExt
              · simp only [hm, if_true] at hr
                obtain rfl := Except.ok.inj hr
                simp at hempty
              · simp only [hm, Bool.false_eq_true, if_false] at hr
                cases hu : urlHostPath l with
                | none => rw [hu] at hr; exact absurd hr (by simp)
                | some hp =>
                  rw [hu] at hr
                  obtain rfl := Except.ok.inj hr
                  simp at hempty

/-- witness for C3 (amended) at a concrete text message. -/
theorem renormalization_partial_idempotent_witness :
    processContent "hello" = .ok ("hello", MsgType.text) ∧
    processContent (("hello", MsgType.text).1) = processContent "hello" :=
  ⟨rfl,
   (renormalization_partial_idempotent "hello").2.2 ("hello", MsgType.text)
     rfl rfl⟩

end ConvoHelper
